import Mathlib

/-!
Verification of the Steam-Deck-RA-Core-Updater repository.

This file gives a shallow embedding of the update pipeline of
`src/core/updater.py` and of the version catalog of
`src/core/version_fetcher.py`, and proves the frozen claims about them.

Strings from the Python side are modelled as `List Char`; machine side
effects (network requests, filesystem calls, the Qt signal sink) are
modelled by explicit environments of boolean outcomes and by explicit
event/action traces.
-/

namespace RAUpdater

/-! ## Version catalog (`src/core/version_fetcher.py`)

`VersionFetcher._version_key` computes
`tuple(int(x) for x in version.split('.'))`, falling back to `(0, 0, 0)`
when a component does not parse.  `fetch_available_versions` collects the
regex captures of `href="/stable/(\d+\.\d+\.\d+)/"` over the index page
and returns `sorted(set(versions), key=self._version_key, reverse=True)`.
-/

/-- Model of Python's `str.split(sep)` for a one-character separator. -/
def splitOnC (sep : Char) : List Char → List (List Char)
  | [] => [[]]
  | c :: rest =>
    if c = sep then [] :: splitOnC sep rest
    else
      match splitOnC sep rest with
      | [] => [[c]]
      | g :: gs => (c :: g) :: gs

/-- Numeric value of a run of decimal digits. -/
def digitsVal (cs : List Char) : Nat :=
  cs.foldl (fun a c => a * 10 + (c.toNat - 48)) 0

/-- Strip leading and trailing whitespace, as Python `int()` tolerates. -/
def stripChars (cs : List Char) : List Char :=
  ((cs.dropWhile Char.isWhitespace).reverse.dropWhile Char.isWhitespace).reverse

/-- Sign/digit analysis of a stripped component, as Python `int(x)`
accepts it: an optional single sign, then a nonempty run of decimal
digits; anything else raises `ValueError`, modelled as `none`. -/
def pyIntCore : List Char → Option Int
  | [] => none
  | c :: rest =>
    if c = '+' then
      if !rest.isEmpty && rest.all Char.isDigit then some ((digitsVal rest : Int)) else none
    else if c = '-' then
      if !rest.isEmpty && rest.all Char.isDigit then some (-(digitsVal rest : Int)) else none
    else
      if (c :: rest).all Char.isDigit then some ((digitsVal (c :: rest) : Int)) else none

/-- Model of Python `int(x)` on a version component: leading/trailing
whitespace is tolerated around the signed digit run. -/
def pyInt (cs : List Char) : Option Int :=
  pyIntCore (stripChars cs)

/-- Parse every component, failing as a whole if any component fails,
exactly as `tuple(int(x) for x in version.split('.'))` raises on the
first bad component. -/
def mapIntParse : List (List Char) → Option (List Int)
  | [] => some []
  | x :: xs =>
    match pyInt x, mapIntParse xs with
    | some k, some ks => some (k :: ks)
    | _, _ => none

/-- `VersionFetcher._version_key`: the tuple of parsed components, or
`(0, 0, 0)` when any component fails to parse. -/
def version_key (v : List Char) : List Int :=
  match mapIntParse (splitOnC '.' v) with
  | some ks => ks
  | none => [0, 0, 0]

/-- Python's lexicographic `<` on integer tuples (a shorter tuple that is a
prefix of a longer one compares below it). -/
def tupLt : List Int → List Int → Bool
  | [], [] => false
  | [], _ :: _ => true
  | _ :: _, [] => false
  | x :: xs, y :: ys => if x < y then true else if y < x then false else tupLt xs ys

/-- Insert a version into a list kept in descending `version_key` order. -/
def insertDesc (v : List Char) : List (List Char) → List (List Char)
  | [] => [v]
  | x :: xs =>
    if tupLt (version_key x) (version_key v) then v :: x :: xs
    else x :: insertDesc v xs

/-- Sort versions in descending `version_key` order, as
`sorted(..., key=self._version_key, reverse=True)` does. -/
def sortDesc : List (List Char) → List (List Char)
  | [] => []
  | x :: xs => insertDesc x (sortDesc xs)

/-- `sorted(set(versions), key=self._version_key, reverse=True)`. -/
def sortVersionsDesc (vs : List (List Char)) : List (List Char) :=
  sortDesc vs.dedup

/-- Match a literal character sequence at the front of the input,
returning the remainder on success. -/
def matchLit : List Char → List Char → Option (List Char)
  | [], rest => some rest
  | _, [] => none
  | p :: ps, c :: cs => if c = p then matchLit ps cs else none

/-- Longest run of decimal digits at the front of the input, with the
remainder (`\d+` is greedy, and since what follows it in the pattern can
never match a digit, maximal munch coincides with regex backtracking). -/
def takeDigits : List Char → List Char × List Char
  | [] => ([], [])
  | c :: rest =>
    if c.isDigit then (c :: (takeDigits rest).1, (takeDigits rest).2)
    else ([], c :: rest)

/-- The literal part of the pattern `href="/stable/(\d+\.\d+\.\d+)/"`
that precedes the capture group. -/
def stablePat : List Char := "href=\"/stable/".data

/-- Consume one expected literal character. -/
def expectChar (c : Char) : List Char → Option (List Char)
  | [] => none
  | x :: xs => if x = c then some xs else none

/-- Try to match the whole pattern `href="/stable/(\d+\.\d+\.\d+)/"` at
the current position, returning the capture and the remainder after the
match. `\d` is modelled as the ASCII decimal digits. -/
def matchVersionAt (l : List Char) : Option (List Char × List Char) :=
  (matchLit stablePat l).bind fun r1 =>
    if (takeDigits r1).1.isEmpty then none
    else
      (expectChar '.' (takeDigits r1).2).bind fun r3 =>
        if (takeDigits r3).1.isEmpty then none
        else
          (expectChar '.' (takeDigits r3).2).bind fun r5 =>
            if (takeDigits r5).1.isEmpty then none
            else
              (expectChar '/' (takeDigits r5).2).bind fun r6 =>
                (expectChar '"' r6).bind fun r7 =>
                  some ((takeDigits r1).1 ++ '.' :: ((takeDigits r3).1 ++ '.' :: (takeDigits r5).1), r7)

/-- Scanner core for `re.findall`: walk the page left to right, record
each non-overlapping match of the pattern and resume after it. The fuel
argument bounds the recursion and is immaterial once it is at least the
input length. -/
def findVersionsF : Nat → List Char → List (List Char)
  | 0, _ => []
  | _ + 1, [] => []
  | n + 1, c :: cs =>
    match matchVersionAt (c :: cs) with
    | some (v, rest) => v :: findVersionsF n rest
    | none => findVersionsF n cs

/-- All captures of `href="/stable/(\d+\.\d+\.\d+)/"` over the page, in
order of occurrence, as `re.findall` returns them. -/
def findVersions (l : List Char) : List (List Char) :=
  findVersionsF l.length l

/-- The pure tail of `VersionFetcher.fetch_available_versions` on a
successfully fetched page: discover versions by pattern matching, then
`sorted(set(versions), key=self._version_key, reverse=True)`. -/
def fetch_available_versions (html : List Char) : List (List Char) :=
  sortVersionsDesc (findVersions html)

/-- A dotted triple of decimal integers, i.e. the language of
`\d+\.\d+\.\d+` anchored to the whole string. -/
def isTriple (v : List Char) : Bool :=
  match splitOnC '.' v with
  | [a, b, c] =>
    !a.isEmpty && a.all Char.isDigit && !b.isEmpty && b.all Char.isDigit &&
      !c.isEmpty && c.all Char.isDigit
  | _ => false

/-! ## Metadata bundle extraction (`CoreUpdater._clone_core_info`)

The extraction loop walks `zip_ref.namelist()`; for each member
containing '/', it drops the first path component, re-joins the rest with
'/', and, when the remainder is nonempty, creates the parent directories
of `cores_path / relative_path` and writes the file there unless the
member name ends with '/'.  Paths below `cores_path` are modelled as
lists of components.  `pathlib` normalizes `cores_path / relative_path`
by dropping empty segments (a trailing slash, doubled slashes) and '.'
segments, but keeps '..' segments, which the operating system resolves
against the directory tree when the parents are created and the file is
opened; that resolution is modelled by `resolveSegs`. -/

/-- Everything the environment decides for one execution of
`CoreUpdater.run`. -/
structure RunEnv where
  cancelFrom : Option Nat
  coresExists : Bool
  backupCopyOk : Bool
  restoreOk : Bool
  cleanOk : Bool
  cloneNetOk : Bool
  cloneChunks : Nat
  cloneZipOk : Bool
  archiveNetOk : Bool
  archiveChunks : List Nat
  archiveTotal : Nat
  archiveStreamOk : Bool
  archiveHeaderOk : Bool
  archiveOpenOk : Bool
  archiveWriteOk : Bool
  extractOk : Bool
  cleanupOk : Bool
  removeBackupOk : Bool
  tempDirCleanupOk : Bool
  exnMsg : String
deriving Repr

/-- The value of the `k`-th read of `self.cancelled`: the flag is
monotone, true from read `cancelFrom` on. -/
def readCancel (env : RunEnv) (k : Nat) : Bool :=
  match env.cancelFrom with
  | none => false
  | some n => decide (n ≤ k)

/-- Events delivered through `UpdaterSignals`. -/
inductive Event where
  | status (s : String)
  | progress (n : Nat)
  | error (s : String)
  | finished (ok : Bool)
deriving DecidableEq, Repr

/-- The externally visible operations `run` performs, in order. -/
inductive Action where
  | backup
  | clean
  | cloneInfo
  | downloadArchive
  | extract
  | cleanup
  | removeBackup
  | restore (hadBackup : Bool)
deriving DecidableEq, Repr

/-- One element of the combined trace: an emitted event or a performed
operation. -/
inductive Item where
  | evt (e : Event)
  | act (a : Action)
deriving DecidableEq, Repr

/-- How one execution of `run` ends. -/
inductive Outcome where
  | cancelled
  | raised
  | stepFailed (msg : String)
  | success
deriving DecidableEq, Repr

/-- Abstract content of the cores directory. -/
inductive CoresContent where
  | absent
  | original
  | emptyDir
  | metaOnly
  | full
  | damaged
deriving DecidableEq, Repr

/-- The chunk loop of `_clone_core_info`: one cancellation read per
chunk; returns whether a read came back true, and the next read index. -/
def cloneLoop (env : RunEnv) : Nat → Nat → Bool × Nat
  | k, 0 => (false, k)
  | k, m + 1 =>
    if readCancel env k then (true, k + 1) else cloneLoop env (k + 1) m

/-- `_clone_core_info` as the orchestrator sees it: false when the
request fails, when a chunk-loop cancellation read is true, or when the
archive/filesystem phase fails; also returns the next cancellation read
index. -/
def cloneInfoRun (env : RunEnv) (k : Nat) : Bool × Nat :=
  if env.cloneNetOk then
    match cloneLoop env k env.cloneChunks with
    | (true, kk) => (false, kk)
    | (false, kk) => (env.cloneZipOk, kk)
  else (false, k)

/-- Result of the archive download loop: overall boolean result, next
cancellation read index, progress values emitted (in order), and bytes
written to the destination file. -/
structure DlOut where
  ok : Bool
  next : Nat
  values : List Nat
  written : Nat
deriving DecidableEq, Repr

/-- The chunk loop of `_download_cores_archive`: before each chunk one
cancellation read (true aborts with the partial file in place); an empty
chunk is skipped; otherwise the chunk is written and, when a positive
content length was declared, `int(40 + (downloaded / total_size) * 30)`
is emitted (`int()` truncation of the nonnegative quotient is modelled by
natural division). -/
def dlLoop (env : RunEnv) : List Nat → Nat → Nat → DlOut
  | [], k, d => ⟨true, k, [], d⟩
  | sz :: rest, k, d =>
    if readCancel env k then ⟨false, k + 1, [], d⟩
    else if sz = 0 then dlLoop env rest (k + 1) d
    else
      let out := dlLoop env rest (k + 1) (d + sz)
      if env.archiveTotal > 0 then
        { out with values := (40 + 30 * (d + sz) / env.archiveTotal) :: out.values }
      else out

/-- `_download_cores_archive` when none of its uncaught exception
classes strikes: a failed request (or non-2xx status, via
`raise_for_status`) is caught and yields false before the loop; a
`requests` error while streaming is caught after the chunks already
delivered and yields false; otherwise the loop result stands.  The
`except` clause catches only `requests.RequestException`: the
parse of the content-length header and the `open`/`f.write` calls can
raise past it, which `download_cores_archive_run` makes explicit. -/
def download_cores_archive (env : RunEnv) (k : Nat) : DlOut :=
  if env.archiveNetOk then
    let out := dlLoop env env.archiveChunks k 0
    if out.ok then { out with ok := env.archiveStreamOk } else out
  else ⟨false, k, [], 0⟩

/-- How a call of `_download_cores_archive` ends at its caller: either an
exception of a class the `except` clause does not name escapes to `run`,
or the function returns the modelled result. -/
inductive DlRun where
  | raised
  | returned (out : DlOut)
deriving DecidableEq, Repr

/-- Whether the chunk loop reaches its first `f.write` call: some chunk
is nonempty and no cancellation read aborts the loop before it. -/
def firstWriteReached (env : RunEnv) : List Nat → Nat → Bool
  | [], _ => false
  | sz :: rest, k =>
    if readCancel env k then false
    else if sz = 0 then firstWriteReached env rest (k + 1)
    else true

/-- `_download_cores_archive` with its uncaught exception classes made
explicit, in program order: only `requests.RequestException` is caught,
so a `ValueError` from `int()` on a malformed content-length header and
an `OSError` from `open(output_path)` or `f.write(chunk)` escape to
`run`.  A failing write is modelled as striking the first write the loop
attempts; when cancellation aborts the loop before any write, or every
chunk is empty, no write is attempted and the ordinary result stands. -/
def download_cores_archive_run (env : RunEnv) (k : Nat) : DlRun :=
  if !env.archiveNetOk then DlRun.returned ⟨false, k, [], 0⟩
  else if !env.archiveHeaderOk then DlRun.raised
  else if !env.archiveOpenOk then DlRun.raised
  else if !env.archiveWriteOk then
    if firstWriteReached env env.archiveChunks k then DlRun.raised
    else DlRun.returned (download_cores_archive env k)
  else DlRun.returned (download_cores_archive env k)

/-- The emitted progress values of an uncancelled pass over the chunks:
cumulative bytes mapped through `int(40 + (downloaded / total) * 30)`,
with nothing emitted when no content length was declared. -/
def progressValues (total : Nat) : Nat → List Nat → List Nat
  | _, [] => []
  | d, sz :: rest =>
    if sz = 0 then progressValues total d rest
    else if total > 0 then
      (40 + 30 * (d + sz) / total) :: progressValues total (d + sz) rest
    else progressValues total (d + sz) rest

/-- What `run` emits or performs before any terminal event: status text,
progress percentages, and the externally visible operations.  Error and
`finished` events are emitted only by the terminal code paths (the three
step-failure arms, the outer `except` arm, and the success epilogue), so
they cannot occur in this part of the trace. -/
inductive StepItem where
  | status (s : String)
  | progress (n : Nat)
  | act (a : Action)
deriving DecidableEq, Repr

/-- Embed a pre-terminal trace element into the full trace alphabet. -/
def StepItem.toItem : StepItem → Item
  | StepItem.status s => Item.evt (Event.status s)
  | StepItem.progress n => Item.evt (Event.progress n)
  | StepItem.act a => Item.act a

/-- Progress emissions of the archive loop as pre-terminal trace
elements. -/
def progressSteps (vals : List Nat) : List StepItem :=
  vals.map fun n => StepItem.progress n

/-- The fixed denylist removed by `_cleanup_extracted_files`. -/
def cleanup_items : List String :=
  ["configure", "cores", "retroarch", "RetroArch-Linux-x86_64",
    "RetroArch-Linux-x86_64.AppImage.home"]

/-- `_cleanup_extracted_files` on the set of top-level entries of the
cores directory: each denylisted entry that exists is removed (file or
directory alike), everything else is kept. -/
def cleanup_extracted_files (entries : List String) : List String :=
  entries.filter fun e => !(cleanup_items.contains e)

/-- Whether `run` took a backup: the cores path existed and the
recursive copy succeeded (`_backup_existing_cores` returned a path). -/
def backupTaken (env : RunEnv) : Bool :=
  env.coresExists && env.backupCopyOk

/-- Content of the cores path when `run` starts. -/
def initialCores (env : RunEnv) : CoresContent :=
  if env.coresExists then CoresContent.original else CoresContent.absent

/-- Effect of `_restore_backup(backup_path)` on the cores path: when a
backup exists and the remove-and-move succeeds the original tree is back;
otherwise (no backup, or an `OSError` caught inside `_restore_backup`)
the current content is left as it is. -/
def restoreFx (env : RunEnv) (c : CoresContent) : CoresContent :=
  if backupTaken env && env.restoreOk then CoresContent.original else c

/-- Result of the body of `run` up to (but excluding) the terminal
events: the pre-terminal trace, how the body ended, and the final content
of the cores path. -/
structure RunOut where
  pre : List StepItem
  outcome : Outcome
  cores : CoresContent
deriving DecidableEq, Repr

/-- The body of `CoreUpdater.run`, step by step.  Cancellation reads are
numbered in program order: 0 after Init, 1 after Backup, 2 after Clean,
then one per metadata chunk, then the read after FetchMetadata, then one
per archive chunk, then the reads after FetchArchive and after Extract.
Every `return` of this body unwinds through the `TemporaryDirectory`
exit, modelled separately by `tempDirTail`; the archive step is taken
through `download_cores_archive`, whose uncaught exception classes
(`download_cores_archive_run`) are assumed not to strike here. -/
def runCore (env : RunEnv) : RunOut :=
  let bt := backupTaken env
  let p0 : List StepItem := [StepItem.status "Preparing update..."]
  if readCancel env 0 then ⟨p0, Outcome.cancelled, initialCores env⟩
  else
    let p1 := p0 ++ [StepItem.status "Backing up existing cores...",
      StepItem.act Action.backup, StepItem.progress 10]
    if readCancel env 1 then ⟨p1, Outcome.cancelled, initialCores env⟩
    else
      let p2 := p1 ++ [StepItem.status "Cleaning cores directory...",
        StepItem.act Action.clean]
      if !env.cleanOk then ⟨p2, Outcome.raised, CoresContent.damaged⟩
      else
        let p2b := p2 ++ [StepItem.progress 20]
        if readCancel env 2 then
          ⟨p2b ++ [StepItem.act (Action.restore bt)], Outcome.cancelled,
            restoreFx env CoresContent.emptyDir⟩
        else
          let p3 := p2b ++ [StepItem.status "Downloading core information...",
            StepItem.act Action.cloneInfo]
          match cloneInfoRun env 3 with
          | (false, _) =>
            ⟨p3 ++ [StepItem.act (Action.restore bt)],
              Outcome.stepFailed "Failed to download core information",
              restoreFx env CoresContent.damaged⟩
          | (true, k3) =>
            let p3b := p3 ++ [StepItem.progress 40]
            if readCancel env k3 then
              ⟨p3b ++ [StepItem.act (Action.restore bt)], Outcome.cancelled,
                restoreFx env CoresContent.metaOnly⟩
            else
              let p4 := p3b ++ [StepItem.status "Downloading cores archive...",
                StepItem.act Action.downloadArchive]
              let dl := download_cores_archive env (k3 + 1)
              let p4b := p4 ++ progressSteps dl.values
              if !dl.ok then
                ⟨p4b ++ [StepItem.act (Action.restore bt)],
                  Outcome.stepFailed "Failed to download cores archive",
                  restoreFx env CoresContent.metaOnly⟩
              else
                if readCancel env dl.next then
                  ⟨p4b ++ [StepItem.act (Action.restore bt)], Outcome.cancelled,
                    restoreFx env CoresContent.metaOnly⟩
                else
                  let p5 := p4b ++ [StepItem.status "Extracting cores...",
                    StepItem.act Action.extract]
                  if !env.extractOk then
                    ⟨p5 ++ [StepItem.act (Action.restore bt)],
                      Outcome.stepFailed "Failed to extract cores",
                      restoreFx env CoresContent.damaged⟩
                  else
                    let p5b := p5 ++ [StepItem.progress 90]
                    if readCancel env (dl.next + 1) then
                      ⟨p5b ++ [StepItem.act (Action.restore bt)], Outcome.cancelled,
                        restoreFx env CoresContent.full⟩
                    else
                      let p6 := p5b ++ [StepItem.status "Finalizing installation...",
                        StepItem.act Action.cleanup]
                      if !env.cleanupOk then ⟨p6, Outcome.raised, CoresContent.full⟩
                      else
                        let p6b := p6 ++ [StepItem.progress 100]
                        if bt then
                          let p7 := p6b ++ [StepItem.act Action.removeBackup]
                          if !env.removeBackupOk then ⟨p7, Outcome.raised, CoresContent.full⟩
                          else ⟨p7, Outcome.success, CoresContent.full⟩
                        else ⟨p6b, Outcome.success, CoresContent.full⟩

/-- The terminal events appended after the body: nothing on the
cancellation returns; the step error plus `finished(False)` on a step
failure; `"Unexpected error: ..."` plus `finished(False)` from the outer
`except`; the completion status plus `finished(True)` on success. -/
def outcomeTail (env : RunEnv) : Outcome → List Item
  | Outcome.cancelled => []
  | Outcome.raised =>
    [Item.evt (Event.error ("Unexpected error: " ++ env.exnMsg)),
      Item.evt (Event.finished false)]
  | Outcome.stepFailed msg =>
    [Item.evt (Event.error msg), Item.evt (Event.finished false)]
  | Outcome.success =>
    [Item.evt (Event.status "Update completed successfully!"),
      Item.evt (Event.finished true)]

/-- The trace of one execution of `CoreUpdater.run` whose
`TemporaryDirectory` exit does not itself raise; `runTraceFull` adds
that failure path. -/
def runTrace (env : RunEnv) : List Item :=
  ((runCore env).pre.map StepItem.toItem) ++ outcomeTail env (runCore env).outcome

/-- What the `with tempfile.TemporaryDirectory()` exit appends.  Every
`return` of the body — the cancellation returns, the step-failure
returns after their error and `finished(False)`, and the fall-through
after `finished(True)` — unwinds through the context manager's
`__exit__` while still inside the `try`; if its `shutil.rmtree` raises,
the `except` arm emits `"Unexpected error: ..."` and `finished(False)`
on top of whatever the body already emitted.  When the body itself
raised, the exception (joined, in the worst case, by a tempdir cleanup
failure during propagation) reaches the `except` arm exactly once, so
the tail already recorded by `outcomeTail` stands. -/
def tempDirTail (env : RunEnv) : Outcome → List Item
  | Outcome.raised => []
  | _ =>
    if env.tempDirCleanupOk then []
    else [Item.evt (Event.error ("Unexpected error: " ++ env.exnMsg)),
      Item.evt (Event.finished false)]

/-- The full trace of one execution of `CoreUpdater.run`, including the
`TemporaryDirectory` exit error path. -/
def runTraceFull (env : RunEnv) : List Item :=
  runTrace env ++ tempDirTail env (runCore env).outcome

/-- The events of a trace, in order. -/
def eventsOf (t : List Item) : List Event :=
  t.filterMap fun i =>
    match i with
    | Item.evt e => some e
    | _ => none

/-- The error strings of a trace, in order. -/
def errorsOf (t : List Item) : List String :=
  t.filterMap fun i =>
    match i with
    | Item.evt (Event.error s) => some s
    | _ => none

/-- The `finished` payloads of a trace, in order. -/
def finishedOf (t : List Item) : List Bool :=
  t.filterMap fun i =>
    match i with
    | Item.evt (Event.finished b) => some b
    | _ => none

/-! ## Backup manager (`CoreUpdater._backup_existing_cores`) -/

/-- The deterministic snapshot location:
`cores_path.parent / f"cores_backup_{version}"`, with paths as component
lists. -/
def backupDest (coresPath : List String) (version : String) : List String :=
  coresPath.dropLast ++ ["cores_backup_" ++ version]

/-- `_backup_existing_cores`: `none` when the cores path does not exist;
otherwise a pre-existing snapshot is removed, the tree is recursively
copied, and the snapshot path is returned — unless the copy fails
(`OSError`/`shutil.Error`), which is caught, logged, and yields `none`.
Returns the reported path and the snapshot content on disk, the cores
tree being abstracted by a content tag. -/
def backup_existing_cores (cores : Option Nat) (copyOk : Bool)
    (coresPath : List String) (version : String) :
    Option (List String) × Option Nat :=
  match cores with
  | none => (none, none)
  | some c =>
    if copyOk then (some (backupDest coresPath version), some c)
    else (none, none)

/-! ## Concrete environments used by counterexamples and witnesses -/

/-- An environment in which every operation succeeds and cancellation
never arrives. -/
def allOkEnv : RunEnv :=
  { cancelFrom := none, coresExists := true, backupCopyOk := true,
    restoreOk := true, cleanOk := true, cloneNetOk := true, cloneChunks := 2,
    cloneZipOk := true, archiveNetOk := true, archiveChunks := [5, 5],
    archiveTotal := 10, archiveStreamOk := true, archiveHeaderOk := true,
    archiveOpenOk := true, archiveWriteOk := true, extractOk := true,
    cleanupOk := true, removeBackupOk := true, tempDirCleanupOk := true,
    exnMsg := "boom" }

/-- Cancellation first observed at read 3: the first chunk read inside
the `_clone_core_info` download loop. -/
def cancelInCloneEnv : RunEnv :=
  { allOkEnv with cancelFrom := some 3 }

/-- Every operation succeeds but `_cleanup_extracted_files` raises. -/
def cleanupFailEnv : RunEnv :=
  { allOkEnv with cleanupOk := false }

/-- The metadata archive phase fails (`zipfile.BadZipFile`/`OSError`). -/
def cloneZipFailEnv : RunEnv :=
  { allOkEnv with cloneZipOk := false }

/-- Cancellation first observed at read 2, the step-boundary check after
Clean. -/
def cancelAtCleanEnv : RunEnv :=
  { allOkEnv with cancelFrom := some 2 }

/-- Every step succeeds but the `TemporaryDirectory` exit raises. -/
def tempDirFailEnv : RunEnv :=
  { allOkEnv with tempDirCleanupOk := false }

/-- The request for the cores archive succeeds but `open(output_path)`
raises an `OSError`. -/
def archiveOpenFailEnv : RunEnv :=
  { allOkEnv with archiveOpenOk := false }

/-- The request succeeds but the content-length header does not parse as
an integer, so `int()` raises a `ValueError`. -/
def archiveHeaderFailEnv : RunEnv :=
  { allOkEnv with archiveHeaderOk := false }

/-- Two consecutive versions of a descending listing: the later one does
not compare above the earlier one under the numeric key order. -/
def descRel (a b : List Char) : Prop :=
  tupLt (version_key a) (version_key b) = false

theorem tupLt_asymm : ∀ a b : List Int, tupLt a b = true → tupLt b a = false := by
  intro a
  induction a with
  | nil =>
    intro b h
    cases b with
    | nil => simp [tupLt] at h
    | cons y ys => simp [tupLt]
  | cons x xs ih =>
    intro b h
    cases b with
    | nil => simp [tupLt] at h
    | cons y ys =>
      by_cases hxy : x < y
      · have hyx : ¬ y < x := by omega
        simp [tupLt, hxy, hyx]
      · by_cases hyx : y < x
        · simp [tupLt, hxy, hyx] at h
        · have hxe : ¬ x < y := hxy
          simp only [tupLt, if_neg hxe, if_neg hyx] at h
          simp only [tupLt, if_neg hyx, if_neg hxe]
          exact ih ys h

theorem insertDesc_perm (v : List Char) : ∀ l, (insertDesc v l).Perm (v :: l) := by
  intro l
  induction l with
  | nil => simp [insertDesc]
  | cons x xs ih =>
    simp only [insertDesc]
    split
    · exact List.Perm.refl _
    · exact (ih.cons x).trans (List.Perm.swap v x xs)

theorem sortDesc_perm : ∀ l, (sortDesc l).Perm l := by
  intro l
  induction l with
  | nil => simp [sortDesc]
  | cons x xs ih =>
    exact (insertDesc_perm x (sortDesc xs)).trans (ih.cons x)

theorem insertDesc_head (v : List Char) (l : List (List Char)) :
    (insertDesc v l).head? = some v ∨ (insertDesc v l).head? = l.head? := by
  cases l with
  | nil => left; rfl
  | cons x xs =>
    simp only [insertDesc]
    split
    · left; rfl
    · right; rfl

theorem insertDesc_chain (v : List Char) :
    ∀ l, List.Chain' descRel l → List.Chain' descRel (insertDesc v l) := by
  intro l
  induction l with
  | nil => intro _; simp [insertDesc]
  | cons x xs ih =>
    intro h
    simp only [insertDesc]
    by_cases hlt : tupLt (version_key x) (version_key v) = true
    · rw [if_pos hlt]
      exact List.chain'_cons.mpr ⟨tupLt_asymm _ _ hlt, h⟩
    · rw [if_neg hlt]
      have hx : descRel x v := by
        simp only [descRel]
        simpa using hlt
      refine List.chain'_cons'.mpr ⟨?_, ih (List.Chain'.tail h)⟩
      intro y hy
      rcases insertDesc_head v xs with hh | hh
      · rw [hh] at hy
        simp only [Option.mem_def, Option.some.injEq] at hy
        subst hy
        exact hx
      · rw [hh] at hy
        exact (List.chain'_cons'.mp h).1 y hy

theorem sortDesc_chain : ∀ l, List.Chain' descRel (sortDesc l) := by
  intro l
  induction l with
  | nil => simp [sortDesc]
  | cons x xs ih => exact insertDesc_chain x _ ih

/-- C3: `fetch_available_versions` returns the discovered version strings
deduplicated (set semantics: same members, no duplicates) and sorted in
descending order of their numeric key; the key of a version string is the
tuple of integers obtained by splitting on '.', with any string whose
components fail integer parsing falling back to the key (0, 0, 0); on the
set containing "1.10.0" and "1.9.0" the result is ["1.10.0", "1.9.0"]
(numeric-triple ordering, not lexicographic string ordering). -/
theorem C3_version_sorting :
    (∀ vs v, v ∈ sortVersionsDesc vs ↔ v ∈ vs) ∧
    (∀ vs, (sortVersionsDesc vs).Nodup) ∧
    (∀ vs, List.Chain' descRel (sortVersionsDesc vs)) ∧
    (∀ v, mapIntParse (splitOnC '.' v) = none → version_key v = [0, 0, 0]) ∧
    sortVersionsDesc ["1.10.0".data, "1.9.0".data] = ["1.10.0".data, "1.9.0".data] ∧
    fetch_available_versions ("href=\"/stable/1.9.0/\" href=\"/stable/1.10.0/\"".data) =
      ["1.10.0".data, "1.9.0".data] := by
  refine ⟨?_, ?_, ?_, ?_, ?_, ?_⟩
  · intro vs v
    simp only [sortVersionsDesc]
    rw [(sortDesc_perm vs.dedup).mem_iff, List.mem_dedup]
  · intro vs
    exact (sortDesc_perm vs.dedup).symm.nodup (List.nodup_dedup vs)
  · intro vs
    exact sortDesc_chain _
  · intro v h
    simp only [version_key]
    rw [h]
  · decide
  · decide

/-- Witness for C3: "abc" has a component that fails integer parsing and
indeed receives the fallback key. -/
theorem C3_version_sorting_witness :
    mapIntParse (splitOnC '.' ("abc".data)) = none ∧ version_key ("abc".data) = [0, 0, 0] :=
  ⟨by decide, C3_version_sorting.2.2.2.1 ("abc".data) (by decide)⟩

theorem takeDigits_spec :
    ∀ l : List Char, l = (takeDigits l).1 ++ (takeDigits l).2 ∧
      (takeDigits l).1.all Char.isDigit = true := by
  intro l
  induction l with
  | nil => simp [takeDigits]
  | cons c cs ih =>
    simp only [takeDigits]
    split
    · constructor
      · simp only [List.cons_append]
        exact congrArg (List.cons c) ih.1
      · rename_i hc
        simp only [List.all_cons, hc, Bool.true_and]
        exact ih.2
    · simp

theorem matchVersionAt_spec {l v rest : List Char}
    (h : matchVersionAt l = some (v, rest)) :
    ∃ d1 d2 d3 : List Char, d1 ≠ [] ∧ d2 ≠ [] ∧ d3 ≠ [] ∧
      d1.all Char.isDigit = true ∧ d2.all Char.isDigit = true ∧
      d3.all Char.isDigit = true ∧ v = d1 ++ '.' :: (d2 ++ '.' :: d3) := by
  unfold matchVersionAt at h
  rcases hm : matchLit stablePat l with _ | r1 <;>
    rw [hm] at h <;> simp only [Option.bind] at h
  · cases h
  by_cases hne1 : (takeDigits r1).1.isEmpty = true
  · rw [if_pos hne1] at h
    cases h
  rw [if_neg hne1] at h
  rcases h3 : expectChar '.' (takeDigits r1).2 with _ | r3 <;>
    rw [h3] at h <;> simp only [Option.bind] at h
  · cases h
  by_cases hne2 : (takeDigits r3).1.isEmpty = true
  · rw [if_pos hne2] at h
    cases h
  rw [if_neg hne2] at h
  rcases h5 : expectChar '.' (takeDigits r3).2 with _ | r5 <;>
    rw [h5] at h <;> simp only [Option.bind] at h
  · cases h
  by_cases hne3 : (takeDigits r5).1.isEmpty = true
  · rw [if_pos hne3] at h
    cases h
  rw [if_neg hne3] at h
  rcases h6 : expectChar '/' (takeDigits r5).2 with _ | r6 <;>
    rw [h6] at h <;> simp only [Option.bind] at h
  · cases h
  rcases h7 : expectChar '"' r6 with _ | r7 <;>
    rw [h7] at h <;> simp only [Option.bind] at h
  · cases h
  injection h with h1
  injection h1 with hv hr
  refine ⟨(takeDigits r1).1, (takeDigits r3).1, (takeDigits r5).1, ?_, ?_, ?_,
    (takeDigits_spec r1).2, (takeDigits_spec r3).2, (takeDigits_spec r5).2, hv.symm⟩
  · simpa [List.isEmpty_iff] using hne1
  · simpa [List.isEmpty_iff] using hne2
  · simpa [List.isEmpty_iff] using hne3

theorem findVersionsF_mem :
    ∀ n (l v : List Char), v ∈ findVersionsF n l →
      ∃ l2 r, matchVersionAt l2 = some (v, r) := by
  intro n
  induction n with
  | zero =>
    intro l v h
    simp [findVersionsF] at h
  | succ n ih =>
    intro l v h
    cases l with
    | nil => simp [findVersionsF] at h
    | cons c cs =>
      simp only [findVersionsF] at h
      rcases hm : matchVersionAt (c :: cs) with _ | ⟨v2, rest⟩
      · rw [hm] at h
        exact ih cs v h
      · rw [hm] at h
        rcases List.mem_cons.mp h with h1 | h2
        · subst h1
          exact ⟨c :: cs, rest, hm⟩
        · exact ih rest v h2

theorem splitOnC_no_sep (sep : Char) :
    ∀ a, (∀ c ∈ a, c ≠ sep) → splitOnC sep a = [a] := by
  intro a
  induction a with
  | nil => intro _; rfl
  | cons c cs ih =>
    intro h
    have hc : c ≠ sep := h c (by simp)
    have hrest := ih (fun x hx => h x (by simp [hx]))
    simp only [splitOnC, if_neg hc]
    rw [hrest]

theorem splitOnC_append (sep : Char) :
    ∀ a rest, (∀ c ∈ a, c ≠ sep) →
      splitOnC sep (a ++ sep :: rest) = a :: splitOnC sep rest := by
  intro a
  induction a with
  | nil =>
    intro rest _
    simp [splitOnC]
  | cons c cs ih =>
    intro rest h
    have hc : c ≠ sep := h c (by simp)
    have hr := ih rest (fun x hx => h x (by simp [hx]))
    simp only [List.cons_append, splitOnC, if_neg hc, List.append_eq]
    rw [hr]

theorem isDigit_ne_dot {c : Char} (h : c.isDigit = true) : c ≠ '.' := by
  intro he
  subst he
  exact absurd h (by decide)

theorem isDigit_ne_plus {c : Char} (h : c.isDigit = true) : c ≠ '+' := by
  intro he
  subst he
  exact absurd h (by decide)

theorem isDigit_ne_minus {c : Char} (h : c.isDigit = true) : c ≠ '-' := by
  intro he
  subst he
  exact absurd h (by decide)

theorem isDigit_not_ws {c : Char} (h : c.isDigit = true) : c.isWhitespace = false := by
  by_cases hw : c.isWhitespace = true
  · exfalso
    have hw2 : c = ' ' ∨ c = '\t' ∨ c = '\r' ∨ c = '\n' := by
      simpa [Char.isWhitespace, or_assoc] using hw
    rcases hw2 with h1 | h1 | h1 | h1 <;> (subst h1; exact absurd h (by decide))
  · simpa using hw

theorem dropWhile_all_false {p : Char → Bool} :
    ∀ l : List Char, (∀ c ∈ l, p c = false) → l.dropWhile p = l := by
  intro l h
  cases l with
  | nil => rfl
  | cons c cs => simp [List.dropWhile_cons, h c (by simp)]

theorem stripChars_digits {ds : List Char} (h : ds.all Char.isDigit = true) :
    stripChars ds = ds := by
  have hall : ∀ c ∈ ds, c.isWhitespace = false := by
    intro c hc
    exact isDigit_not_ws (by simpa using (List.all_eq_true.mp h c hc))
  unfold stripChars
  rw [dropWhile_all_false ds hall,
    dropWhile_all_false ds.reverse (fun c hc => hall c (List.mem_reverse.mp hc)),
    List.reverse_reverse]

theorem pyInt_digits {ds : List Char} (hne : ds ≠ [])
    (hall : ds.all Char.isDigit = true) : pyInt ds = some ((digitsVal ds : Int)) := by
  cases ds with
  | nil => exact absurd rfl hne
  | cons c cs =>
    have hc : c.isDigit = true := by simpa using (List.all_eq_true.mp hall c (by simp))
    unfold pyInt
    rw [stripChars_digits hall]
    simp only [pyIntCore]
    rw [if_neg (isDigit_ne_plus hc), if_neg (isDigit_ne_minus hc), if_pos hall]

theorem version_key_triple {d1 d2 d3 : List Char}
    (hn1 : d1 ≠ []) (hn2 : d2 ≠ []) (hn3 : d3 ≠ [])
    (ha1 : d1.all Char.isDigit = true) (ha2 : d2.all Char.isDigit = true)
    (ha3 : d3.all Char.isDigit = true) :
    splitOnC '.' (d1 ++ '.' :: (d2 ++ '.' :: d3)) = [d1, d2, d3] ∧
    mapIntParse (splitOnC '.' (d1 ++ '.' :: (d2 ++ '.' :: d3))) =
      some [(digitsVal d1 : Int), (digitsVal d2 : Int), (digitsVal d3 : Int)] ∧
    version_key (d1 ++ '.' :: (d2 ++ '.' :: d3)) =
      [(digitsVal d1 : Int), (digitsVal d2 : Int), (digitsVal d3 : Int)] := by
  have nodot : ∀ d : List Char, d.all Char.isDigit = true → ∀ c ∈ d, c ≠ '.' :=
    fun d hd c hc => isDigit_ne_dot (by simpa using (List.all_eq_true.mp hd c hc))
  have hsplit : splitOnC '.' (d1 ++ '.' :: (d2 ++ '.' :: d3)) = [d1, d2, d3] := by
    rw [splitOnC_append '.' d1 _ (nodot d1 ha1),
      splitOnC_append '.' d2 _ (nodot d2 ha2),
      splitOnC_no_sep '.' d3 (nodot d3 ha3)]
  have hmap : mapIntParse [d1, d2, d3] =
      some [(digitsVal d1 : Int), (digitsVal d2 : Int), (digitsVal d3 : Int)] := by
    simp only [mapIntParse, pyInt_digits hn1 ha1, pyInt_digits hn2 ha2,
      pyInt_digits hn3 ha3]
  refine ⟨hsplit, by rw [hsplit]; exact hmap, ?_⟩
  unfold version_key
  rw [hsplit, hmap]

/-- C10: every version string returned by `fetch_available_versions`
matches `\d+\.\d+\.\d+` (a dotted triple of decimal integers), because
the discovery pattern only captures such strings; consequently
`_version_key` parses it into a genuine integer triple, and the
unparseable-string fallback `(0, 0, 0)` is never used for fetched
versions. -/
theorem C10_fetched_versions_parse :
    ∀ html v, v ∈ fetch_available_versions html →
      isTriple v = true ∧
      ∃ ks, mapIntParse (splitOnC '.' v) = some ks ∧ version_key v = ks ∧
        ks.length = 3 := by
  intro html v hv
  have hv2 : v ∈ findVersions html := by
    have h1 : v ∈ sortDesc (findVersions html).dedup := by
      simpa [fetch_available_versions, sortVersionsDesc] using hv
    exact List.mem_dedup.mp ((sortDesc_perm _).mem_iff.mp h1)
  obtain ⟨l2, r, hm⟩ := findVersionsF_mem _ _ _ hv2
  obtain ⟨d1, d2, d3, hn1, hn2, hn3, ha1, ha2, ha3, hveq⟩ := matchVersionAt_spec hm
  subst hveq
  obtain ⟨hsplit, hmap, hkey⟩ := version_key_triple hn1 hn2 hn3 ha1 ha2 ha3
  refine ⟨?_, [(digitsVal d1 : Int), (digitsVal d2 : Int), (digitsVal d3 : Int)],
    hmap, hkey, rfl⟩
  unfold isTriple
  rw [hsplit]
  simp [List.isEmpty_iff, hn1, hn2, hn3, ha1, ha2, ha3]

/-- Witness for C10: a concrete page yields the capture "1.2.3", which is
a triple with a successfully parsed key. -/
theorem C10_fetched_versions_parse_witness :
    ("1.2.3".data ∈ fetch_available_versions ("href=\"/stable/1.2.3/\"".data)) ∧
    (isTriple ("1.2.3".data) = true ∧
      ∃ ks, mapIntParse (splitOnC '.' ("1.2.3".data)) = some ks ∧
        version_key ("1.2.3".data) = ks ∧ ks.length = 3) :=
  ⟨by decide,
    C10_fetched_versions_parse ("href=\"/stable/1.2.3/\"".data) ("1.2.3".data)
      (by decide)⟩

theorem getLast?_append_right {α : Type} (l1 : List α) {l2 : List α} {a : α}
    (h : l2.getLast? = some a) : (l1 ++ l2).getLast? = some a := by
  have hne : l2 ≠ [] := by
    intro he
    rw [he] at h
    simp at h
  rw [List.getLast?_append_of_ne_nil l1 hne, h]

theorem readCancel_of_none {env : RunEnv} (h : env.cancelFrom = none) (k : Nat) :
    readCancel env k = false := by
  unfold readCancel
  rw [h]

theorem readCancel_lt {env : RunEnv} {N : Nat} (h : env.cancelFrom = some N)
    {k : Nat} (hk : k < N) : readCancel env k = false := by
  unfold readCancel
  rw [h]
  simp only [decide_eq_false_iff_not]
  omega

theorem readCancel_ge {env : RunEnv} {N : Nat} (h : env.cancelFrom = some N)
    {k : Nat} (hk : N ≤ k) : readCancel env k = true := by
  unfold readCancel
  rw [h]
  simpa using hk

theorem readCancel_mono_false {env : RunEnv} {j : Nat}
    (h : readCancel env j = false) {i : Nat} (hij : i ≤ j) :
    readCancel env i = false := by
  rcases hc : env.cancelFrom with _ | N
  · exact readCancel_of_none hc i
  · unfold readCancel at h ⊢
    rw [hc] at h ⊢
    simp only [decide_eq_false_iff_not] at h ⊢
    omega

theorem cloneLoop_no_cancel {env : RunEnv} :
    ∀ (m k : Nat), (∀ i, i < k + m → readCancel env i = false) →
      cloneLoop env k m = (false, k + m) := by
  intro m
  induction m with
  | zero => intro k _; simp [cloneLoop]
  | succ m ih =>
    intro k h
    have hk : readCancel env k = false := h k (by omega)
    simp only [cloneLoop, hk, Bool.false_eq_true, if_false]
    rw [ih (k + 1) (fun i hi => h i (by omega))]
    have : k + 1 + m = k + (m + 1) := by omega
    rw [this]

theorem cloneLoop_cancel {env : RunEnv} {N : Nat}
    (h : env.cancelFrom = some N) :
    ∀ (m k : Nat), k ≤ N → N < k + m → cloneLoop env k m = (true, N + 1) := by
  intro m
  induction m with
  | zero => intro k h1 h2; omega
  | succ m ih =>
    intro k h1 h2
    by_cases hk : k = N
    · subst hk
      simp [cloneLoop, readCancel_ge h (Nat.le_refl k)]
    · have hlt : k < N := by omega
      simp only [cloneLoop, readCancel_lt h hlt, Bool.false_eq_true, if_false]
      exact ih (k + 1) (by omega) (by omega)

theorem dlLoop_no_cancel {env : RunEnv} :
    ∀ (sizes : List Nat) (k d : Nat),
      (∀ i, i < k + sizes.length → readCancel env i = false) →
      dlLoop env sizes k d =
        ⟨true, k + sizes.length, progressValues env.archiveTotal d sizes,
          d + sizes.sum⟩ := by
  intro sizes
  induction sizes with
  | nil => intro k d _; simp [dlLoop, progressValues]
  | cons sz rest ih =>
    intro k d h
    have hk : readCancel env k = false := h k (by simp)
    by_cases hsz : sz = 0
    · subst hsz
      simp only [dlLoop, hk, Bool.false_eq_true, if_false, if_true]
      rw [ih (k + 1) d (fun i hi => h i (by simp at hi ⊢; omega))]
      simp only [progressValues, if_true, List.length_cons, List.sum_cons,
        DlOut.mk.injEq]
      refine ⟨trivial, by omega, trivial, by omega⟩
    · simp only [dlLoop, hk, Bool.false_eq_true, if_false, hsz, if_false]
      rw [ih (k + 1) (d + sz) (fun i hi => h i (by simp at hi ⊢; omega))]
      by_cases ht : env.archiveTotal > 0
      · simp only [ht, if_true, progressValues, hsz, Bool.false_eq_true,
          if_false, List.length_cons, List.sum_cons, DlOut.mk.injEq]
        refine ⟨trivial, by omega, trivial, by omega⟩
      · simp only [ht, if_false, progressValues, hsz, Bool.false_eq_true,
          if_false, List.length_cons, List.sum_cons, DlOut.mk.injEq]
        refine ⟨trivial, by omega, trivial, by omega⟩

theorem dlLoop_cancel {env : RunEnv} {N : Nat} (h : env.cancelFrom = some N) :
    ∀ (sizes : List Nat) (k d : Nat), k ≤ N → N < k + sizes.length →
      (dlLoop env sizes k d).ok = false ∧
      (dlLoop env sizes k d).written = d + ((sizes.take (N - k)).sum) := by
  intro sizes
  induction sizes with
  | nil => intro k d h1 h2; simp at h2; omega
  | cons sz rest ih =>
    intro k d h1 h2
    by_cases hk : k = N
    · subst hk
      simp [dlLoop, readCancel_ge h (Nat.le_refl k)]
    · have hlt : k < N := by omega
      simp only [dlLoop, readCancel_lt h hlt, Bool.false_eq_true, if_false]
      have htake : (sz :: rest).take (N - k) = sz :: rest.take (N - (k + 1)) := by
        have h3 : N - k = (N - (k + 1)) + 1 := by omega
        rw [h3]
        rfl
      by_cases hsz : sz = 0
      · subst hsz
        simp only [if_true]
        obtain ⟨ho, hw⟩ := ih (k + 1) d (by omega) (by simp at h2 ⊢; omega)
        refine ⟨ho, ?_⟩
        rw [hw, htake]
        simp
      · simp only [hsz, Bool.false_eq_true, if_false]
        obtain ⟨ho, hw⟩ := ih (k + 1) (d + sz) (by omega) (by simp at h2 ⊢; omega)
        by_cases ht : env.archiveTotal > 0
        · simp only [ht, if_true]
          refine ⟨ho, ?_⟩
          rw [hw, htake]
          simp only [List.sum_cons]
          omega
        · simp only [ht, if_false]
          refine ⟨ho, ?_⟩
          rw [hw, htake]
          simp only [List.sum_cons]
          omega

theorem dlLoop_ok_written {env : RunEnv} :
    ∀ (sizes : List Nat) (k d : Nat), (dlLoop env sizes k d).ok = true →
      (dlLoop env sizes k d).written = d + sizes.sum := by
  intro sizes
  induction sizes with
  | nil => intro k d _; simp [dlLoop]
  | cons sz rest ih =>
    intro k d hok
    by_cases hk : readCancel env k = true
    · simp [dlLoop, hk] at hok
    · rw [Bool.not_eq_true] at hk
      by_cases hsz : sz = 0
      · subst hsz
        simp only [dlLoop, hk, Bool.false_eq_true, if_false, if_true] at hok ⊢
        rw [ih (k + 1) d hok]
        simp
      · simp only [dlLoop, hk, Bool.false_eq_true, if_false, hsz] at hok ⊢
        by_cases ht : env.archiveTotal > 0
        · simp only [ht, if_true] at hok ⊢
          rw [ih (k + 1) (d + sz) hok]
          simp only [List.sum_cons]
          omega
        · simp only [ht, if_false] at hok ⊢
          rw [ih (k + 1) (d + sz) hok]
          simp only [List.sum_cons]
          omega

theorem progressValues_total_zero :
    ∀ (sizes : List Nat) (d : Nat), progressValues 0 d sizes = [] := by
  intro sizes
  induction sizes with
  | nil => intro d; rfl
  | cons sz rest ih =>
    intro d
    rw [progressValues]
    by_cases hsz : sz = 0
    · rw [if_pos hsz]
      exact ih d
    · rw [if_neg hsz, if_neg (by omega)]
      exact ih (d + sz)

theorem progressValues_lower {T : Nat} :
    ∀ (sizes : List Nat) (d v : Nat), v ∈ progressValues T d sizes →
      40 + 30 * d / T ≤ v := by
  intro sizes
  induction sizes with
  | nil => intro d v hv; simp [progressValues] at hv
  | cons sz rest ih =>
    intro d v hv
    rw [progressValues] at hv
    have hmono : 30 * d / T ≤ 30 * (d + sz) / T :=
      Nat.div_le_div_right (by omega)
    by_cases hsz : sz = 0
    · rw [if_pos hsz] at hv
      exact ih d v hv
    · rw [if_neg hsz] at hv
      by_cases ht : T > 0
      · rw [if_pos ht] at hv
        rcases List.mem_cons.mp hv with h1 | h1
        · subst h1
          exact Nat.add_le_add_left hmono 40
        · exact le_trans (Nat.add_le_add_left hmono 40) (ih (d + sz) v h1)
      · rw [if_neg ht] at hv
        exact le_trans (Nat.add_le_add_left hmono 40) (ih (d + sz) v hv)

theorem progressValues_chain {T : Nat} :
    ∀ (sizes : List Nat) (d : Nat),
      List.Chain' (fun a b => a ≤ b) (progressValues T d sizes) := by
  intro sizes
  induction sizes with
  | nil => intro d; simp [progressValues]
  | cons sz rest ih =>
    intro d
    rw [progressValues]
    by_cases hsz : sz = 0
    · rw [if_pos hsz]
      exact ih d
    · rw [if_neg hsz]
      by_cases ht : T > 0
      · rw [if_pos ht]
        refine List.chain'_cons'.mpr ⟨?_, ih (d + sz)⟩
        intro y hy
        have hmem : y ∈ progressValues T (d + sz) rest := by
          rcases hpv : progressValues T (d + sz) rest with _ | ⟨x, xs⟩
          · rw [hpv] at hy
            simp at hy
          · rw [hpv] at hy
            simp only [List.head?_cons, Option.mem_def, Option.some.injEq] at hy
            simp [hpv, ← hy]
        exact progressValues_lower rest (d + sz) y hmem
      · rw [if_neg ht]
        exact ih (d + sz)

theorem progressValues_le70 {T : Nat} :
    ∀ (sizes : List Nat) (d : Nat), d + sizes.sum ≤ T →
      ∀ v ∈ progressValues T d sizes, v ≤ 70 := by
  intro sizes
  induction sizes with
  | nil => intro d _ v hv; simp [progressValues] at hv
  | cons sz rest ih =>
    intro d hsum v hv
    rw [List.sum_cons] at hsum
    rw [progressValues] at hv
    by_cases hsz : sz = 0
    · rw [if_pos hsz] at hv
      exact ih d (by omega) v hv
    · rw [if_neg hsz] at hv
      by_cases ht : T > 0
      · rw [if_pos ht] at hv
        rcases List.mem_cons.mp hv with h1 | h1
        · subst h1
          have hq : 30 * (d + sz) / T ≤ 30 :=
            le_trans (Nat.div_le_div_right (by omega : 30 * (d + sz) ≤ 30 * T))
              (le_of_eq (Nat.mul_div_left 30 ht))
          omega
        · exact ih (d + sz) (by omega) v h1
      · rw [if_neg ht] at hv
        exact ih (d + sz) (by omega) v hv

theorem progressValues_lt70 {T : Nat} :
    ∀ (sizes : List Nat) (d : Nat), d + sizes.sum < T →
      ∀ v ∈ progressValues T d sizes, v < 70 := by
  intro sizes
  induction sizes with
  | nil => intro d _ v hv; simp [progressValues] at hv
  | cons sz rest ih =>
    intro d hsum v hv
    rw [List.sum_cons] at hsum
    rw [progressValues] at hv
    by_cases hsz : sz = 0
    · rw [if_pos hsz] at hv
      exact ih d (by omega) v hv
    · rw [if_neg hsz] at hv
      by_cases ht : T > 0
      · rw [if_pos ht] at hv
        rcases List.mem_cons.mp hv with h1 | h1
        · subst h1
          have hq : 30 * (d + sz) / T < 30 :=
            (Nat.div_lt_iff_lt_mul ht).mpr (by omega)
          omega
        · exact ih (d + sz) (by omega) v h1
      · rw [if_neg ht] at hv
        exact ih (d + sz) (by omega) v hv

theorem progressValues_attain {T : Nat} (ht : 0 < T) :
    ∀ (sizes : List Nat) (d s : Nat), sizes.getLast? = some s → s ≠ 0 →
      d + sizes.sum = T → 70 ∈ progressValues T d sizes := by
  intro sizes
  induction sizes with
  | nil => intro d s h; simp at h
  | cons sz rest ih =>
    intro d s hlast hs hsum
    cases rest with
    | nil =>
      simp only [List.getLast?_singleton, Option.some.injEq] at hlast
      rw [progressValues, if_neg (by omega : ¬ sz = 0), if_pos ht]
      have hdz : d + sz = T := by
        simp only [List.sum_cons, List.sum_nil] at hsum
        omega
      rw [hdz, Nat.mul_div_left 30 ht]
      simp [progressValues]
    | cons s2 rest2 =>
      have hlast2 : (s2 :: rest2).getLast? = some s := by
        rw [List.getLast?_cons_cons] at hlast
        exact hlast
      rw [progressValues]
      by_cases hsz : sz = 0
      · rw [if_pos hsz]
        refine ih d s hlast2 hs ?_
        rw [List.sum_cons] at hsum
        omega
      · rw [if_neg hsz, if_pos ht]
        refine List.mem_cons_of_mem _ (ih (d + sz) s hlast2 hs ?_)
        rw [List.sum_cons] at hsum
        omega

/-- C5: during the archive download step, when a positive content length
is declared, after each written chunk the value
`int(40 + (downloaded / total_size) * 30)` is emitted — the loop's
emitted sequence is exactly `progressValues` over the cumulative byte
counts; that sequence is non-decreasing; its values stay at or below 70
while the downloaded bytes stay at or below the declared total, never
reach 70 if the total is never reached, and do reach 70 when the
downloaded count reaches the total; when no content length is declared
(total 0), no progress value is emitted during the step.  (`int()`
truncation of the nonnegative float quotient is modelled by natural
division.) -/
theorem C5_progress_mapping :
    (∀ env k, env.cancelFrom = none → env.archiveNetOk = true →
      (download_cores_archive env k).values =
        progressValues env.archiveTotal 0 env.archiveChunks) ∧
    (∀ (T : Nat) (sizes : List Nat) (d : Nat),
      List.Chain' (fun a b => a ≤ b) (progressValues T d sizes)) ∧
    (∀ (sizes : List Nat) (d : Nat), progressValues 0 d sizes = []) ∧
    (∀ (T : Nat) (sizes : List Nat) (d : Nat), d + sizes.sum ≤ T →
      ∀ v ∈ progressValues T d sizes, v ≤ 70) ∧
    (∀ (T : Nat) (sizes : List Nat) (d : Nat), d + sizes.sum < T →
      ∀ v ∈ progressValues T d sizes, v < 70) ∧
    (∀ (T : Nat) (sizes : List Nat) (d s : Nat), 0 < T →
      sizes.getLast? = some s → s ≠ 0 → d + sizes.sum = T →
      70 ∈ progressValues T d sizes) := by
  refine ⟨?_, fun T sizes d => progressValues_chain sizes d,
    fun sizes d => progressValues_total_zero sizes d,
    fun T sizes d h => progressValues_le70 sizes d h,
    fun T sizes d h => progressValues_lt70 sizes d h,
    fun T sizes d s ht h1 h2 h3 => progressValues_attain ht sizes d s h1 h2 h3⟩
  intro env k hnone hnet
  unfold download_cores_archive
  rw [if_pos hnet,
    dlLoop_no_cancel env.archiveChunks k 0 (fun i _ => readCancel_of_none hnone i)]
  simp

/-- Witness for C5 on a concrete download of two 500000-byte chunks
against a declared total of 1000000. -/
theorem C5_progress_mapping_witness :
    ((0 : Nat) + ([500000, 500000] : List Nat).sum ≤ 1000000 ∧
      ∀ v ∈ progressValues 1000000 0 [500000, 500000], v ≤ 70) ∧
    progressValues 1000000 0 [500000, 500000] = [55, 70] :=
  ⟨⟨by decide, C5_progress_mapping.2.2.2.1 1000000 [500000, 500000] 0 (by decide)⟩,
    by decide⟩

/-- C7 counterexample: `_download_cores_archive` can raise to its
caller.  With the request succeeding, an `OSError` from
`open(output_path)` — and likewise a `ValueError` from `int()` on a
malformed content-length header, or an `OSError` from `f.write` once a
write is attempted — is not `requests.RequestException`, so the
`except` clause does not catch it and the call ends with an escaped
exception instead of a boolean, contrary to the claim that the helper
never raises. -/
theorem C7_counterexample :
    archiveOpenFailEnv.archiveNetOk = true ∧
    download_cores_archive_run archiveOpenFailEnv 6 = DlRun.raised ∧
    download_cores_archive_run archiveHeaderFailEnv 6 = DlRun.raised ∧
    download_cores_archive_run { allOkEnv with archiveWriteOk := false } 6 =
      DlRun.raised :=
  ⟨by decide, by decide, by decide, by decide⟩

/-- C7 (amended): `_download_cores_archive` catches only
`requests.RequestException`, so on a failed request or non-2xx status it
returns false with nothing written; on a mid-stream network failure it
returns false; when a cancellation read inside the chunk loop comes
back true it returns false with exactly the chunks written before that
read (the partial file is left in place); and it returns true only when
the full response body (the sum of all chunks) has been written to the
destination.  It is NOT exception-free: a `ValueError` from `int()` on
a malformed content-length header, an `OSError` from
`open(output_path)`, and an `OSError` from `f.write` once the loop
attempts a write all escape to `run`; when none of those classes
strikes, the call returns the modelled boolean result. -/
theorem C7_download_results :
    (∀ env k, env.archiveNetOk = false →
      download_cores_archive_run env k = DlRun.returned ⟨false, k, [], 0⟩) ∧
    (∀ env k, env.archiveNetOk = true → env.archiveHeaderOk = false →
      download_cores_archive_run env k = DlRun.raised) ∧
    (∀ env k, env.archiveNetOk = true → env.archiveHeaderOk = true →
      env.archiveOpenOk = false →
      download_cores_archive_run env k = DlRun.raised) ∧
    (∀ env k, env.archiveNetOk = true → env.archiveHeaderOk = true →
      env.archiveOpenOk = true → env.archiveWriteOk = false →
      firstWriteReached env env.archiveChunks k = true →
      download_cores_archive_run env k = DlRun.raised) ∧
    (∀ env k, env.archiveHeaderOk = true → env.archiveOpenOk = true →
      env.archiveWriteOk = true →
      download_cores_archive_run env k =
        DlRun.returned (download_cores_archive env k)) ∧
    (∀ env k, env.cancelFrom = none → env.archiveNetOk = true →
      env.archiveStreamOk = false →
      (download_cores_archive env k).ok = false) ∧
    (∀ env k N, env.cancelFrom = some N → env.archiveNetOk = true → k ≤ N →
      N < k + env.archiveChunks.length →
      (download_cores_archive env k).ok = false ∧
      (download_cores_archive env k).written =
        (env.archiveChunks.take (N - k)).sum) ∧
    (∀ env k, (download_cores_archive env k).ok = true →
      env.archiveNetOk = true ∧ env.archiveStreamOk = true ∧
      (download_cores_archive env k).written = env.archiveChunks.sum) := by
  refine ⟨?_, ?_, ?_, ?_, ?_, ?_, ?_, ?_⟩
  · intro env k h
    unfold download_cores_archive_run
    rw [if_pos (by simp [h])]
  · intro env k hnet hhd
    unfold download_cores_archive_run
    rw [if_neg (by simp [hnet]), if_pos (by simp [hhd])]
  · intro env k hnet hhd hop
    unfold download_cores_archive_run
    rw [if_neg (by simp [hnet]), if_neg (by simp [hhd]), if_pos (by simp [hop])]
  · intro env k hnet hhd hop hwr hfw
    unfold download_cores_archive_run
    rw [if_neg (by simp [hnet]), if_neg (by simp [hhd]), if_neg (by simp [hop]),
      if_pos (by simp [hwr]), if_pos hfw]
  · intro env k hhd hop hwr
    unfold download_cores_archive_run
    by_cases hnet : env.archiveNetOk = true
    · rw [if_neg (by simp [hnet]), if_neg (by simp [hhd]), if_neg (by simp [hop]),
        if_neg (by simp [hwr])]
    · rw [if_pos (by simpa using hnet)]
      have : env.archiveNetOk = false := by simpa using hnet
      unfold download_cores_archive
      rw [if_neg (by simp [this])]
  · intro env k hnone hnet hst
    unfold download_cores_archive
    rw [if_pos hnet,
      dlLoop_no_cancel env.archiveChunks k 0 (fun i _ => readCancel_of_none hnone i)]
    simp [hst]
  · intro env k N hsome hnet hk hlen
    obtain ⟨ho, hw⟩ := dlLoop_cancel hsome env.archiveChunks k 0 hk hlen
    unfold download_cores_archive
    rw [if_pos hnet, if_neg (by rw [ho]; simp)]
    refine ⟨ho, ?_⟩
    rw [hw]
    simp
  · intro env k hok
    unfold download_cores_archive at hok ⊢
    by_cases hnet : env.archiveNetOk = true
    · rw [if_pos hnet] at hok ⊢
      by_cases hlo : (dlLoop env env.archiveChunks k 0).ok = true
      · rw [if_pos hlo] at hok ⊢
        simp only at hok
        refine ⟨hnet, hok, ?_⟩
        have hwr := dlLoop_ok_written env.archiveChunks k 0 hlo
        simpa using hwr
      · rw [if_neg hlo] at hok
        exact absurd hok hlo
    · rw [if_neg hnet] at hok
      simp at hok

/-- Witness for C7 (amended): a request failure yields a returned false
result with nothing written. -/
theorem C7_download_results_witness :
    ({ allOkEnv with archiveNetOk := false }.archiveNetOk = false) ∧
    download_cores_archive_run { allOkEnv with archiveNetOk := false } 6 =
      DlRun.returned ⟨false, 6, [], 0⟩ :=
  ⟨by decide, C7_download_results.1 { allOkEnv with archiveNetOk := false } 6
    (by decide)⟩

theorem errorsOf_append (a b : List Item) :
    errorsOf (a ++ b) = errorsOf a ++ errorsOf b := by
  simp [errorsOf, List.filterMap_append]

theorem finishedOf_append (a b : List Item) :
    finishedOf (a ++ b) = finishedOf a ++ finishedOf b := by
  simp [finishedOf, List.filterMap_append]

theorem eventsOf_append (a b : List Item) :
    eventsOf (a ++ b) = eventsOf a ++ eventsOf b := by
  simp [eventsOf, List.filterMap_append]

theorem errorsOf_mapStep :
    ∀ l : List StepItem, errorsOf (l.map StepItem.toItem) = [] := by
  intro l
  induction l with
  | nil => rfl
  | cons i rest ih => cases i <;> simpa [errorsOf, StepItem.toItem] using ih

theorem finishedOf_mapStep :
    ∀ l : List StepItem, finishedOf (l.map StepItem.toItem) = [] := by
  intro l
  induction l with
  | nil => rfl
  | cons i rest ih => cases i <;> simpa [finishedOf, StepItem.toItem] using ih

theorem finished_not_mem_mapStep (b : Bool) :
    ∀ l : List StepItem, Event.finished b ∉ eventsOf (l.map StepItem.toItem) := by
  intro l
  induction l with
  | nil => simp [eventsOf]
  | cons i rest ih =>
    cases i <;> simp [eventsOf, StepItem.toItem] at ih ⊢ <;> exact ih

theorem act_mem_mapStep (a : Action) :
    ∀ l : List StepItem,
      Item.act a ∈ l.map StepItem.toItem ↔ StepItem.act a ∈ l := by
  intro l
  induction l with
  | nil => simp
  | cons i rest ih => cases i <;> simp [StepItem.toItem, ih]

theorem act_not_mem_tail (env : RunEnv) (a : Action) :
    ∀ o, Item.act a ∉ outcomeTail env o := by
  intro o
  cases o <;> simp [outcomeTail]

theorem tempDirTail_ok (env : RunEnv) (htd : env.tempDirCleanupOk = true) :
    ∀ o, tempDirTail env o = [] := by
  intro o
  cases o <;> simp [tempDirTail, htd]

theorem runTraceFull_ok (env : RunEnv) (htd : env.tempDirCleanupOk = true) :
    runTraceFull env = runTrace env := by
  unfold runTraceFull
  rw [tempDirTail_ok env htd]
  simp

/-- In a run whose `TemporaryDirectory` exit succeeds, `finished` is
emitted at most once and, when emitted, is the last event. -/
theorem finished_last_runTrace (env : RunEnv) (b : Bool) :
    (Event.finished b ∈ eventsOf (runTrace env) →
      (eventsOf (runTrace env)).getLast? = some (Event.finished b)) ∧
    (finishedOf (runTrace env)).length ≤ 1 := by
  unfold runTrace
  rcases ho : (runCore env).outcome with _ | _ | msg | _ <;> constructor
  · intro hmem
    rw [eventsOf_append] at hmem
    simp only [outcomeTail, eventsOf, List.filterMap_nil, List.append_nil] at hmem
    exact absurd hmem (finished_not_mem_mapStep b _)
  · rw [finishedOf_append, finishedOf_mapStep]
    simp [outcomeTail, finishedOf]
  · intro hmem
    rw [eventsOf_append] at hmem ⊢
    rcases List.mem_append.mp hmem with h1 | h1
    · exact absurd h1 (finished_not_mem_mapStep b _)
    · have hb : b = false := by
        simpa [outcomeTail, eventsOf] using h1
      subst hb
      refine getLast?_append_right _ ?_
      simp [outcomeTail, eventsOf, List.getLast?_cons_cons]
  · rw [finishedOf_append, finishedOf_mapStep]
    simp [outcomeTail, finishedOf]
  · intro hmem
    rw [eventsOf_append] at hmem ⊢
    rcases List.mem_append.mp hmem with h1 | h1
    · exact absurd h1 (finished_not_mem_mapStep b _)
    · have hb : b = false := by
        simpa [outcomeTail, eventsOf] using h1
      subst hb
      refine getLast?_append_right _ ?_
      simp [outcomeTail, eventsOf, List.getLast?_cons_cons]
  · rw [finishedOf_append, finishedOf_mapStep]
    simp [outcomeTail, finishedOf]
  · intro hmem
    rw [eventsOf_append] at hmem ⊢
    rcases List.mem_append.mp hmem with h1 | h1
    · exact absurd h1 (finished_not_mem_mapStep b _)
    · have hb : b = true := by
        simpa [outcomeTail, eventsOf] using h1
      subst hb
      refine getLast?_append_right _ ?_
      simp [outcomeTail, eventsOf, List.getLast?_cons_cons]
  · rw [finishedOf_append, finishedOf_mapStep]
    simp [outcomeTail, finishedOf]

/-- C9 counterexample: `finished.emit(True)` sits inside the
`with tempfile.TemporaryDirectory()` block inside `try`, and the
context manager's exit runs after it; in an otherwise all-success run
whose tempdir cleanup raises, the `except` arm emits an error and a
second `finished(False)` after `finished(True)` — `finished` is emitted
twice and the `finished(True)` emission is not last, contrary to the
claim. -/
theorem C9_counterexample :
    tempDirFailEnv.tempDirCleanupOk = false ∧
    finishedOf (runTraceFull tempDirFailEnv) = [true, false] ∧
    Event.finished true ∈ eventsOf (runTraceFull tempDirFailEnv) ∧
    (eventsOf (runTraceFull tempDirFailEnv)).getLast? =
      some (Event.finished false) :=
  ⟨by decide, by decide, by decide, by decide⟩

/-- C9 (amended): whenever the `TemporaryDirectory` exit does not
itself raise, `finished` is emitted at most once and, when emitted, is
the last event of the session; but every `return` of the body unwinds
through that exit inside the `try`, so when its cleanup raises after a
successful run the `except` arm emits `"Unexpected error: ..."` and a
second `finished(False)` after `finished(True)`. -/
theorem C9_finished_last :
    (∀ (env : RunEnv) (b : Bool), env.tempDirCleanupOk = true →
      (Event.finished b ∈ eventsOf (runTraceFull env) →
        (eventsOf (runTraceFull env)).getLast? = some (Event.finished b)) ∧
      (finishedOf (runTraceFull env)).length ≤ 1) ∧
    (∀ env : RunEnv, env.tempDirCleanupOk = false →
      (runCore env).outcome = Outcome.success →
      finishedOf (runTraceFull env) = [true, false]) := by
  constructor
  · intro env b htd
    rw [runTraceFull_ok env htd]
    exact finished_last_runTrace env b
  · intro env htd hsucc
    unfold runTraceFull runTrace
    rw [hsucc, finishedOf_append, finishedOf_append, finishedOf_mapStep]
    simp [outcomeTail, tempDirTail, htd, finishedOf]

/-- C8: `_backup_existing_cores` returns `None` when the cores path does
not exist or when the recursive copy fails (the update then proceeds
without a backup); otherwise it produces a full recursive copy of the
cores tree at the deterministic sibling path
`cores_path.parent / "cores_backup_<version>"` and returns that path, so
the snapshot location is a pure function of the update target and the
version. -/
theorem C8_backup_snapshot :
    (∀ copyOk coresPath version,
      backup_existing_cores none copyOk coresPath version = (none, none)) ∧
    (∀ (c : Nat) coresPath version,
      backup_existing_cores (some c) false coresPath version = (none, none)) ∧
    (∀ (c : Nat) coresPath version,
      backup_existing_cores (some c) true coresPath version =
        (some (backupDest coresPath version), some c)) ∧
    (∀ cores copyOk coresPath version,
      (backup_existing_cores cores copyOk coresPath version).1 = none ∨
      (backup_existing_cores cores copyOk coresPath version).1 =
        some (backupDest coresPath version)) ∧
    (∀ coresPath version,
      backupDest coresPath version =
        coresPath.dropLast ++ ["cores_backup_" ++ version]) := by
  refine ⟨fun _ _ _ => rfl, fun _ _ _ => rfl, fun _ _ _ => rfl, ?_,
    fun _ _ => rfl⟩
  intro cores copyOk coresPath version
  cases cores with
  | none => left; rfl
  | some c =>
    cases copyOk with
    | false => left; rfl
    | true => right; rfl

/-- Witness for C9 (amended): in the all-success environment, whose
tempdir cleanup succeeds, `finished(True)` is emitted and is the last
event. -/
theorem C9_finished_last_witness :
    (allOkEnv.tempDirCleanupOk = true ∧
      Event.finished true ∈ eventsOf (runTraceFull allOkEnv)) ∧
    (eventsOf (runTraceFull allOkEnv)).getLast? = some (Event.finished true) :=
  ⟨⟨by decide, by decide⟩, (C9_finished_last.1 allOkEnv true (by decide)).1 (by decide)⟩

theorem cloneInfoRun_success {env : RunEnv} (hnet : env.cloneNetOk = true)
    (hzip : env.cloneZipOk = true)
    (hl : ∀ i, i < 3 + env.cloneChunks → readCancel env i = false) :
    cloneInfoRun env 3 = (true, 3 + env.cloneChunks) := by
  unfold cloneInfoRun
  rw [if_pos hnet, cloneLoop_no_cancel env.cloneChunks 3 hl]
  simp [hzip]

theorem download_success {env : RunEnv} (k : Nat)
    (hnet : env.archiveNetOk = true) (hstream : env.archiveStreamOk = true)
    (hl : ∀ i, i < k + env.archiveChunks.length → readCancel env i = false) :
    download_cores_archive env k =
      ⟨true, k + env.archiveChunks.length,
        progressValues env.archiveTotal 0 env.archiveChunks,
        env.archiveChunks.sum⟩ := by
  unfold download_cores_archive
  rw [if_pos hnet, dlLoop_no_cancel env.archiveChunks k 0 hl]
  simp [hstream]

theorem act_not_mem_progressSteps (a : Action) (vs : List Nat) :
    StepItem.act a ∉ progressSteps vs := by
  simp [progressSteps]

/-- C2: whenever one of the three fetch/extract steps reports failure
(`_clone_core_info`, `_download_cores_archive`, or `_extract_cores`
returns False), the orchestrator invokes the backup restore (restoring
the snapshot into the cores path when one was taken and the restore
succeeds), emits exactly the one step-specific error string, emits
`finished(False)`, and executes no step of the sequence after the failing
one. -/
theorem C2_step_failures (env : RunEnv) :
    (readCancel env 2 = false → env.cleanOk = true →
      (cloneInfoRun env 3).1 = false →
      errorsOf (runTrace env) = ["Failed to download core information"] ∧
      finishedOf (runTrace env) = [false] ∧
      Item.act (Action.restore (backupTaken env)) ∈ runTrace env ∧
      (backupTaken env = true → env.restoreOk = true →
        (runCore env).cores = CoresContent.original) ∧
      Item.act Action.downloadArchive ∉ runTrace env ∧
      Item.act Action.extract ∉ runTrace env ∧
      Item.act Action.cleanup ∉ runTrace env ∧
      Item.act Action.removeBackup ∉ runTrace env) ∧
    (env.cleanOk = true → env.cloneNetOk = true → env.cloneZipOk = true →
      readCancel env (3 + env.cloneChunks) = false →
      (download_cores_archive env (3 + env.cloneChunks + 1)).ok = false →
      errorsOf (runTrace env) = ["Failed to download cores archive"] ∧
      finishedOf (runTrace env) = [false] ∧
      Item.act (Action.restore (backupTaken env)) ∈ runTrace env ∧
      (backupTaken env = true → env.restoreOk = true →
        (runCore env).cores = CoresContent.original) ∧
      Item.act Action.extract ∉ runTrace env ∧
      Item.act Action.cleanup ∉ runTrace env ∧
      Item.act Action.removeBackup ∉ runTrace env) ∧
    (env.cleanOk = true → env.cloneNetOk = true → env.cloneZipOk = true →
      readCancel env (3 + env.cloneChunks) = false →
      (download_cores_archive env (3 + env.cloneChunks + 1)).ok = true →
      readCancel env (download_cores_archive env (3 + env.cloneChunks + 1)).next
        = false →
      env.extractOk = false →
      errorsOf (runTrace env) = ["Failed to extract cores"] ∧
      finishedOf (runTrace env) = [false] ∧
      Item.act (Action.restore (backupTaken env)) ∈ runTrace env ∧
      (backupTaken env = true → env.restoreOk = true →
        (runCore env).cores = CoresContent.original) ∧
      Item.act Action.cleanup ∉ runTrace env ∧
      Item.act Action.removeBackup ∉ runTrace env) := by
  refine ⟨?_, ?_, ?_⟩
  · intro hc2 hclean hfail
    have h0 : readCancel env 0 = false := readCancel_mono_false hc2 (by omega)
    have h1 : readCancel env 1 = false := readCancel_mono_false hc2 (by omega)
    rcases hcl : cloneInfoRun env 3 with ⟨ok3, k3⟩
    rw [hcl] at hfail
    simp only at hfail
    subst hfail
    have hcores : (runCore env).cores = restoreFx env CoresContent.damaged := by
      unfold runCore
      simp only [h0, h1, hclean, hc2, hcl, Bool.not_true, Bool.false_eq_true,
        if_false]
    refine ⟨?_, ?_, ?_, ?_, ?_, ?_, ?_, ?_⟩
    all_goals
      first
      | (intro hbt hro
         rw [hcores]
         simp [restoreFx, hbt, hro])
      | (unfold runTrace runCore
         simp only [h0, h1, hclean, hc2, hcl, Bool.not_true, Bool.false_eq_true,
           if_false]
         simp [outcomeTail, errorsOf, finishedOf, StepItem.toItem])
  · intro hclean hnet hzip hrc4 hdl
    have h0 : readCancel env 0 = false := readCancel_mono_false hrc4 (by omega)
    have h1 : readCancel env 1 = false := readCancel_mono_false hrc4 (by omega)
    have h2 : readCancel env 2 = false := readCancel_mono_false hrc4 (by omega)
    have hcl := cloneInfoRun_success hnet hzip
      (fun i hi => readCancel_mono_false hrc4 (by omega))
    have hcores : (runCore env).cores = restoreFx env CoresContent.metaOnly := by
      unfold runCore
      simp only [h0, h1, h2, hclean, hcl, hrc4, hdl, Bool.not_true,
        Bool.not_false, Bool.false_eq_true, if_false, if_true]
    refine ⟨?_, ?_, ?_, ?_, ?_, ?_, ?_⟩
    all_goals
      first
      | (intro hbt hro
         rw [hcores]
         simp [restoreFx, hbt, hro])
      | (unfold runTrace runCore
         simp only [h0, h1, h2, hclean, hcl, hrc4, hdl, Bool.not_true,
           Bool.not_false, Bool.false_eq_true, if_false, if_true]
         simp [outcomeTail, errorsOf, finishedOf, StepItem.toItem,
           errorsOf_append, finishedOf_append, errorsOf_mapStep,
           finishedOf_mapStep, act_not_mem_progressSteps, progressSteps])
  · intro hclean hnet hzip hrc4 hdl hrc5 hext
    have h0 : readCancel env 0 = false := readCancel_mono_false hrc4 (by omega)
    have h1 : readCancel env 1 = false := readCancel_mono_false hrc4 (by omega)
    have h2 : readCancel env 2 = false := readCancel_mono_false hrc4 (by omega)
    have hcl := cloneInfoRun_success hnet hzip
      (fun i hi => readCancel_mono_false hrc4 (by omega))
    have hcores : (runCore env).cores = restoreFx env CoresContent.damaged := by
      unfold runCore
      simp only [h0, h1, h2, hclean, hcl, hrc4, hdl, hrc5, hext, Bool.not_true,
        Bool.not_false, Bool.false_eq_true, if_false, if_true]
    refine ⟨?_, ?_, ?_, ?_, ?_, ?_⟩
    all_goals
      first
      | (intro hbt hro
         rw [hcores]
         simp [restoreFx, hbt, hro])
      | (unfold runTrace runCore
         simp only [h0, h1, h2, hclean, hcl, hrc4, hdl, hrc5, hext,
           Bool.not_true, Bool.not_false, Bool.false_eq_true, if_false, if_true]
         simp [outcomeTail, errorsOf, finishedOf, StepItem.toItem,
           errorsOf_append, finishedOf_append, errorsOf_mapStep,
           finishedOf_mapStep, act_not_mem_progressSteps, progressSteps])

/-- Witness for C2: a metadata-archive failure produces exactly the
"Failed to download core information" error, `finished(False)`, the
restore, and no later steps. -/
theorem C2_step_failures_witness :
    (readCancel cloneZipFailEnv 2 = false ∧ cloneZipFailEnv.cleanOk = true ∧
      (cloneInfoRun cloneZipFailEnv 3).1 = false) ∧
    (errorsOf (runTrace cloneZipFailEnv) =
      ["Failed to download core information"] ∧
    finishedOf (runTrace cloneZipFailEnv) = [false] ∧
    Item.act (Action.restore (backupTaken cloneZipFailEnv)) ∈
      runTrace cloneZipFailEnv ∧
    (backupTaken cloneZipFailEnv = true → cloneZipFailEnv.restoreOk = true →
      (runCore cloneZipFailEnv).cores = CoresContent.original) ∧
    Item.act Action.downloadArchive ∉ runTrace cloneZipFailEnv ∧
    Item.act Action.extract ∉ runTrace cloneZipFailEnv ∧
    Item.act Action.cleanup ∉ runTrace cloneZipFailEnv ∧
    Item.act Action.removeBackup ∉ runTrace cloneZipFailEnv) :=
  ⟨⟨by decide, by decide, by decide⟩,
    (C2_step_failures cloneZipFailEnv).1 (by decide) (by decide) (by decide)⟩

/-- C6 counterexample: in an environment where every step succeeds but
`_cleanup_extracted_files` raises, Extract succeeds and Cleanup runs, yet
the session does NOT end with `finished(True)`: the exception escapes to
`run`'s blanket handler, which emits "Unexpected error: ..." and
`finished(False)` — contradicting the claim that a Cleanup failure is
only logged and the session still ends with `finished(True)`. -/
theorem C6_counterexample :
    cleanupFailEnv.extractOk = true ∧
    Item.act Action.extract ∈ runTrace cleanupFailEnv ∧
    Item.act Action.cleanup ∈ runTrace cleanupFailEnv ∧
    finishedOf (runTrace cleanupFailEnv) = [false] ∧
    errorsOf (runTrace cleanupFailEnv) = ["Unexpected error: boom"] :=
  ⟨by decide, by decide, by decide, by decide, by decide⟩

/-- C6 (amended): if the Extract step succeeds and the run is never
cancelled, the Cleanup step runs, removing exactly the fixed denylist of
top-level entries from the cores directory when they exist (everything
else is kept); but a failure during Cleanup is NOT confined to a log
entry — `_cleanup_extracted_files` has no handler, so the exception
reaches `run`'s generic handler, which emits an "Unexpected error"
message and `finished(False)`; only when Cleanup (and the final backup
removal, if one exists) succeeds does the session end with
`finished(True)`. -/
theorem C6_cleanup_behavior :
    (∀ (entries : List String) e, e ∈ cleanup_extracted_files entries ↔
      e ∈ entries ∧ e ∉ cleanup_items) ∧
    (∀ env : RunEnv, env.cancelFrom = none → env.cleanOk = true →
      env.cloneNetOk = true → env.cloneZipOk = true →
      env.archiveNetOk = true → env.archiveStreamOk = true →
      env.extractOk = true →
      Item.act Action.cleanup ∈ runTrace env ∧
      (env.cleanupOk = false →
        finishedOf (runTrace env) = [false] ∧
        errorsOf (runTrace env) = ["Unexpected error: " ++ env.exnMsg]) ∧
      (env.cleanupOk = true →
        (backupTaken env = false ∨ env.removeBackupOk = true) →
        finishedOf (runTrace env) = [true])) := by
  constructor
  · intro entries e
    simp [cleanup_extracted_files, List.mem_filter]
  intro env hnone hclean hnet hzip hanet hastream hext
  have hrcAll : ∀ k, readCancel env k = false := readCancel_of_none hnone
  have hcl := cloneInfoRun_success hnet hzip (fun i _ => hrcAll i)
  have hdl := download_success (3 + env.cloneChunks + 1) hanet hastream
    (fun i _ => hrcAll i)
  refine ⟨?_, ?_, ?_⟩
  · unfold runTrace runCore
    simp only [hrcAll, hclean, hcl, hdl, hext, Bool.not_true, Bool.not_false,
      Bool.false_eq_true, if_false, if_true]
    by_cases hco : env.cleanupOk
    · simp only [hco, Bool.not_true, Bool.false_eq_true, if_false]
      by_cases hbt : backupTaken env
      · simp only [hbt, if_true]
        by_cases hrm : env.removeBackupOk
        all_goals
          simp only [hrm, Bool.not_true, Bool.not_false, Bool.false_eq_true,
            if_false, if_true]
        all_goals
          refine List.mem_append.mpr (Or.inl ?_)
        all_goals
          rw [act_mem_mapStep]
        all_goals
          simp [List.mem_append, act_not_mem_progressSteps]
      · simp only [hbt, Bool.false_eq_true, if_false]
        refine List.mem_append.mpr (Or.inl ?_)
        rw [act_mem_mapStep]
        simp [List.mem_append, act_not_mem_progressSteps]
    · simp only [hco, Bool.not_false, if_true]
      refine List.mem_append.mpr (Or.inl ?_)
      rw [act_mem_mapStep]
      simp [List.mem_append, act_not_mem_progressSteps]
  · intro hco
    unfold runTrace runCore
    simp only [hrcAll, hclean, hcl, hdl, hext, hco, Bool.not_true,
      Bool.not_false, Bool.false_eq_true, if_false, if_true]
    rw [finishedOf_append, finishedOf_mapStep, errorsOf_append, errorsOf_mapStep]
    simp [outcomeTail, finishedOf, errorsOf]
  · intro hco hrm
    unfold runTrace runCore
    simp only [hrcAll, hclean, hcl, hdl, hext, hco, Bool.not_true,
      Bool.not_false, Bool.false_eq_true, if_false, if_true]
    rcases hrm with hrm | hrm
    · simp only [hrm, Bool.false_eq_true, if_false]
      rw [finishedOf_append, finishedOf_mapStep]
      simp [outcomeTail, finishedOf]
    · by_cases hbt : backupTaken env
      · simp only [hbt, if_true, hrm, Bool.not_true, Bool.false_eq_true,
          if_false]
        rw [finishedOf_append, finishedOf_mapStep]
        simp [outcomeTail, finishedOf]
      · simp only [hbt, Bool.false_eq_true, if_false]
        rw [finishedOf_append, finishedOf_mapStep]
        simp [outcomeTail, finishedOf]

/-- Witness for C6 (amended): in the all-success environment Cleanup runs
and the session ends with `finished(True)`. -/
theorem C6_cleanup_behavior_witness :
    (allOkEnv.cancelFrom = none ∧ allOkEnv.extractOk = true ∧
      allOkEnv.cleanupOk = true) ∧
    (Item.act Action.cleanup ∈ runTrace allOkEnv ∧
      finishedOf (runTrace allOkEnv) = [true]) :=
  ⟨⟨rfl, rfl, rfl⟩,
    ⟨(C6_cleanup_behavior.2 allOkEnv rfl rfl rfl rfl rfl rfl rfl).1,
      (C6_cleanup_behavior.2 allOkEnv rfl rfl rfl rfl rfl rfl rfl).2.2 rfl
        (Or.inr rfl)⟩⟩

/-- C1 counterexample: cancellation first observed inside the
`_clone_core_info` download chunk loop (read index 3, the first chunk
read; the boundary checks at reads 0–2 all saw the flag unset) does NOT
lead to a silent rollback-and-return: the helper returns False and `run`
takes the step-failure path, emitting the step error and
`finished(False)` — contrary to the claim that a cancellation observed
inside a download chunk loop returns without emitting `finished` and
without emitting any error. -/
theorem C1_counterexample :
    cancelInCloneEnv.cancelFrom = some 3 ∧
    readCancel cancelInCloneEnv 2 = false ∧
    readCancel cancelInCloneEnv 3 = true ∧
    cancelInCloneEnv.cloneChunks = 2 ∧
    errorsOf (runTraceFull cancelInCloneEnv) =
      ["Failed to download core information"] ∧
    finishedOf (runTraceFull cancelInCloneEnv) = [false] :=
  ⟨by decide, by decide, by decide, by decide, by decide, by decide⟩

/-- C1 (amended): whenever the cancellation flag is first observed set at
a step-boundary check — and the `TemporaryDirectory` exit, through which
every such return unwinds, does not itself raise (otherwise the outer
`except` emits `"Unexpected error: ..."` and `finished(False)` even on a
cancellation return) — the run returns without emitting `finished` and
without emitting any error, and the cores path holds its pre-run content:
at the checks after Init and after Backup nothing has been mutated yet
and no restore is invoked; at the checks after Clean, after
FetchMetadata, after FetchArchive and after Extract the run invokes
`_restore_backup`, which restores the snapshot into the cores path when
one was taken (and the restore operation itself succeeds).  Cancellation
observed inside a download chunk loop instead surfaces as a step failure
and emits the step error and `finished(False)` (see the
counterexample). -/
theorem C1_cancellation_paths (env : RunEnv) (hro : env.restoreOk = true)
    (htd : env.tempDirCleanupOk = true) :
    (env.cancelFrom = some 0 →
      (runCore env).outcome = Outcome.cancelled ∧
      finishedOf (runTraceFull env) = [] ∧ errorsOf (runTraceFull env) = [] ∧
      (runCore env).cores = initialCores env ∧
      (∀ b, Item.act (Action.restore b) ∉ runTraceFull env)) ∧
    (env.cancelFrom = some 1 →
      (runCore env).outcome = Outcome.cancelled ∧
      finishedOf (runTraceFull env) = [] ∧ errorsOf (runTraceFull env) = [] ∧
      (runCore env).cores = initialCores env ∧
      (∀ b, Item.act (Action.restore b) ∉ runTraceFull env)) ∧
    (env.cancelFrom = some 2 → env.cleanOk = true →
      (runCore env).outcome = Outcome.cancelled ∧
      finishedOf (runTraceFull env) = [] ∧ errorsOf (runTraceFull env) = [] ∧
      Item.act (Action.restore (backupTaken env)) ∈ runTraceFull env ∧
      (backupTaken env = true → (runCore env).cores = CoresContent.original)) ∧
    (env.cancelFrom = some (3 + env.cloneChunks) → env.cleanOk = true →
      env.cloneNetOk = true → env.cloneZipOk = true →
      (runCore env).outcome = Outcome.cancelled ∧
      finishedOf (runTraceFull env) = [] ∧ errorsOf (runTraceFull env) = [] ∧
      Item.act (Action.restore (backupTaken env)) ∈ runTraceFull env ∧
      (backupTaken env = true → (runCore env).cores = CoresContent.original)) ∧
    (env.cancelFrom = some (3 + env.cloneChunks + 1 + env.archiveChunks.length) →
      env.cleanOk = true → env.cloneNetOk = true → env.cloneZipOk = true →
      env.archiveNetOk = true → env.archiveStreamOk = true →
      (runCore env).outcome = Outcome.cancelled ∧
      finishedOf (runTraceFull env) = [] ∧ errorsOf (runTraceFull env) = [] ∧
      Item.act (Action.restore (backupTaken env)) ∈ runTraceFull env ∧
      (backupTaken env = true → (runCore env).cores = CoresContent.original)) ∧
    (env.cancelFrom =
        some (3 + env.cloneChunks + 1 + env.archiveChunks.length + 1) →
      env.cleanOk = true → env.cloneNetOk = true → env.cloneZipOk = true →
      env.archiveNetOk = true → env.archiveStreamOk = true →
      env.extractOk = true →
      (runCore env).outcome = Outcome.cancelled ∧
      finishedOf (runTraceFull env) = [] ∧ errorsOf (runTraceFull env) = [] ∧
      Item.act (Action.restore (backupTaken env)) ∈ runTraceFull env ∧
      (backupTaken env = true → (runCore env).cores = CoresContent.original)) := by
  rw [runTraceFull_ok env htd]
  refine ⟨?_, ?_, ?_, ?_, ?_, ?_⟩
  · intro hsome
    have hk0 : readCancel env 0 = true := readCancel_ge hsome (by omega)
    refine ⟨?_, ?_, ?_, ?_, ?_⟩
    · unfold runCore
      simp only [hk0, if_true]
    · unfold runTrace runCore
      simp only [hk0, if_true]
      rw [finishedOf_append, finishedOf_mapStep]
      simp [outcomeTail, finishedOf]
    · unfold runTrace runCore
      simp only [hk0, if_true]
      rw [errorsOf_append, errorsOf_mapStep]
      simp [outcomeTail, errorsOf]
    · unfold runCore
      simp only [hk0, if_true]
    · intro b
      unfold runTrace runCore
      simp only [hk0, if_true]
      simp [outcomeTail, StepItem.toItem]
  · intro hsome
    have h0 : readCancel env 0 = false := readCancel_lt hsome (by omega)
    have hk1 : readCancel env 1 = true := readCancel_ge hsome (by omega)
    refine ⟨?_, ?_, ?_, ?_, ?_⟩
    · unfold runCore
      simp only [h0, hk1, Bool.false_eq_true, if_false, if_true]
    · unfold runTrace runCore
      simp only [h0, hk1, Bool.false_eq_true, if_false, if_true]
      rw [finishedOf_append, finishedOf_mapStep]
      simp [outcomeTail, finishedOf]
    · unfold runTrace runCore
      simp only [h0, hk1, Bool.false_eq_true, if_false, if_true]
      rw [errorsOf_append, errorsOf_mapStep]
      simp [outcomeTail, errorsOf]
    · unfold runCore
      simp only [h0, hk1, Bool.false_eq_true, if_false, if_true]
    · intro b
      unfold runTrace runCore
      simp only [h0, hk1, Bool.false_eq_true, if_false, if_true]
      simp [outcomeTail, StepItem.toItem]
  · intro hsome hclean
    have h0 : readCancel env 0 = false := readCancel_lt hsome (by omega)
    have h1 : readCancel env 1 = false := readCancel_lt hsome (by omega)
    have hk2 : readCancel env 2 = true := readCancel_ge hsome (by omega)
    refine ⟨?_, ?_, ?_, ?_, ?_⟩
    · unfold runCore
      simp only [h0, h1, hclean, hk2, Bool.not_true, Bool.false_eq_true,
        if_false, if_true]
    · unfold runTrace runCore
      simp only [h0, h1, hclean, hk2, Bool.not_true, Bool.false_eq_true,
        if_false, if_true]
      rw [finishedOf_append, finishedOf_mapStep]
      simp [outcomeTail, finishedOf]
    · unfold runTrace runCore
      simp only [h0, h1, hclean, hk2, Bool.not_true, Bool.false_eq_true,
        if_false, if_true]
      rw [errorsOf_append, errorsOf_mapStep]
      simp [outcomeTail, errorsOf]
    · unfold runTrace runCore
      simp only [h0, h1, hclean, hk2, Bool.not_true, Bool.false_eq_true,
        if_false, if_true]
      refine List.mem_append.mpr (Or.inl ?_)
      rw [act_mem_mapStep]
      simp
    · intro hbt
      unfold runCore
      simp only [h0, h1, hclean, hk2, Bool.not_true, Bool.false_eq_true,
        if_false, if_true]
      simp [restoreFx, hbt, hro]
  · intro hsome hclean hnet hzip
    have h0 : readCancel env 0 = false := readCancel_lt hsome (by omega)
    have h1 : readCancel env 1 = false := readCancel_lt hsome (by omega)
    have h2 : readCancel env 2 = false := readCancel_lt hsome (by omega)
    have hcl := cloneInfoRun_success hnet hzip
      (fun i hi => readCancel_lt hsome (by omega))
    have hk3 : readCancel env (3 + env.cloneChunks) = true :=
      readCancel_ge hsome (by omega)
    refine ⟨?_, ?_, ?_, ?_, ?_⟩
    · unfold runCore
      simp only [h0, h1, h2, hclean, hcl, hk3, Bool.not_true,
        Bool.false_eq_true, if_false, if_true]
    · unfold runTrace runCore
      simp only [h0, h1, h2, hclean, hcl, hk3, Bool.not_true,
        Bool.false_eq_true, if_false, if_true]
      rw [finishedOf_append, finishedOf_mapStep]
      simp [outcomeTail, finishedOf]
    · unfold runTrace runCore
      simp only [h0, h1, h2, hclean, hcl, hk3, Bool.not_true,
        Bool.false_eq_true, if_false, if_true]
      rw [errorsOf_append, errorsOf_mapStep]
      simp [outcomeTail, errorsOf]
    · unfold runTrace runCore
      simp only [h0, h1, h2, hclean, hcl, hk3, Bool.not_true,
        Bool.false_eq_true, if_false, if_true]
      refine List.mem_append.mpr (Or.inl ?_)
      rw [act_mem_mapStep]
      simp
    · intro hbt
      unfold runCore
      simp only [h0, h1, h2, hclean, hcl, hk3, Bool.not_true,
        Bool.false_eq_true, if_false, if_true]
      simp [restoreFx, hbt, hro]
  · intro hsome hclean hnet hzip hanet hastream
    have h0 : readCancel env 0 = false := readCancel_lt hsome (by omega)
    have h1 : readCancel env 1 = false := readCancel_lt hsome (by omega)
    have h2 : readCancel env 2 = false := readCancel_lt hsome (by omega)
    have hcl := cloneInfoRun_success hnet hzip
      (fun i hi => readCancel_lt hsome (by omega))
    have hk3 : readCancel env (3 + env.cloneChunks) = false :=
      readCancel_lt hsome (by omega)
    have hdl := download_success (3 + env.cloneChunks + 1) hanet hastream
      (fun i hi => readCancel_lt hsome (by omega))
    have hk4 : readCancel env
        (3 + env.cloneChunks + 1 + env.archiveChunks.length) = true :=
      readCancel_ge hsome (by omega)
    refine ⟨?_, ?_, ?_, ?_, ?_⟩
    · unfold runCore
      simp only [h0, h1, h2, hclean, hcl, hk3, hdl, hk4, Bool.not_true,
        Bool.false_eq_true, if_false, if_true]
    · unfold runTrace runCore
      simp only [h0, h1, h2, hclean, hcl, hk3, hdl, hk4, Bool.not_true,
        Bool.false_eq_true, if_false, if_true]
      rw [finishedOf_append, finishedOf_mapStep]
      simp [outcomeTail, finishedOf]
    · unfold runTrace runCore
      simp only [h0, h1, h2, hclean, hcl, hk3, hdl, hk4, Bool.not_true,
        Bool.false_eq_true, if_false, if_true]
      rw [errorsOf_append, errorsOf_mapStep]
      simp [outcomeTail, errorsOf]
    · unfold runTrace runCore
      simp only [h0, h1, h2, hclean, hcl, hk3, hdl, hk4, Bool.not_true,
        Bool.false_eq_true, if_false, if_true]
      refine List.mem_append.mpr (Or.inl ?_)
      rw [act_mem_mapStep]
      simp [List.mem_append, act_not_mem_progressSteps]
    · intro hbt
      unfold runCore
      simp only [h0, h1, h2, hclean, hcl, hk3, hdl, hk4, Bool.not_true,
        Bool.false_eq_true, if_false, if_true]
      simp [restoreFx, hbt, hro]
  · intro hsome hclean hnet hzip hanet hastream hext
    have h0 : readCancel env 0 = false := readCancel_lt hsome (by omega)
    have h1 : readCancel env 1 = false := readCancel_lt hsome (by omega)
    have h2 : readCancel env 2 = false := readCancel_lt hsome (by omega)
    have hcl := cloneInfoRun_success hnet hzip
      (fun i hi => readCancel_lt hsome (by omega))
    have hk3 : readCancel env (3 + env.cloneChunks) = false :=
      readCancel_lt hsome (by omega)
    have hdl := download_success (3 + env.cloneChunks + 1) hanet hastream
      (fun i hi => readCancel_lt hsome (by omega))
    have hk4 : readCancel env
        (3 + env.cloneChunks + 1 + env.archiveChunks.length) = false :=
      readCancel_lt hsome (by omega)
    have hk5 : readCancel env
        (3 + env.cloneChunks + 1 + env.archiveChunks.length + 1) = true :=
      readCancel_ge hsome (by omega)
    refine ⟨?_, ?_, ?_, ?_, ?_⟩
    · unfold runCore
      simp only [h0, h1, h2, hclean, hcl, hk3, hdl, hk4, hk5, hext,
        Bool.not_true, Bool.false_eq_true, if_false, if_true]
    · unfold runTrace runCore
      simp only [h0, h1, h2, hclean, hcl, hk3, hdl, hk4, hk5, hext,
        Bool.not_true, Bool.false_eq_true, if_false, if_true]
      rw [finishedOf_append, finishedOf_mapStep]
      simp [outcomeTail, finishedOf]
    · unfold runTrace runCore
      simp only [h0, h1, h2, hclean, hcl, hk3, hdl, hk4, hk5, hext,
        Bool.not_true, Bool.false_eq_true, if_false, if_true]
      rw [errorsOf_append, errorsOf_mapStep]
      simp [outcomeTail, errorsOf]
    · unfold runTrace runCore
      simp only [h0, h1, h2, hclean, hcl, hk3, hdl, hk4, hk5, hext,
        Bool.not_true, Bool.false_eq_true, if_false, if_true]
      refine List.mem_append.mpr (Or.inl ?_)
      rw [act_mem_mapStep]
      simp [List.mem_append, act_not_mem_progressSteps]
    · intro hbt
      unfold runCore
      simp only [h0, h1, h2, hclean, hcl, hk3, hdl, hk4, hk5, hext,
        Bool.not_true, Bool.false_eq_true, if_false, if_true]
      simp [restoreFx, hbt, hro]

/-- Witness for C1 (amended): cancellation first observed at the
step-boundary check after Clean ends the run silently — cancelled
outcome, no `finished`, no error — with the restore invoked and the
original cores tree back in place. -/
theorem C1_cancellation_paths_witness :
    (cancelAtCleanEnv.restoreOk = true ∧
      cancelAtCleanEnv.tempDirCleanupOk = true ∧
      cancelAtCleanEnv.cancelFrom = some 2 ∧
      cancelAtCleanEnv.cleanOk = true ∧ backupTaken cancelAtCleanEnv = true) ∧
    ((runCore cancelAtCleanEnv).outcome = Outcome.cancelled ∧
      finishedOf (runTraceFull cancelAtCleanEnv) = [] ∧
      errorsOf (runTraceFull cancelAtCleanEnv) = [] ∧
      Item.act (Action.restore (backupTaken cancelAtCleanEnv)) ∈
        runTraceFull cancelAtCleanEnv ∧
      (runCore cancelAtCleanEnv).cores = CoresContent.original) := by
  have h := (C1_cancellation_paths cancelAtCleanEnv rfl rfl).2.2.1 rfl rfl
  exact ⟨⟨rfl, rfl, rfl, rfl, rfl⟩,
    ⟨h.1, h.2.1, h.2.2.1, h.2.2.2.1, h.2.2.2.2 rfl⟩⟩

end RAUpdater
